import Mathlib

/-!
Verification of the ax-chess rules engine against its specification.

This file is a shallow embedding of the JavaScript chess engine
(src/backend/engine: Board.js, Piece.js, the six piece classes,
moves/MoveValidator.js, and the Game class given in PLANNING.md) into Lean.

Modelling conventions:
* JavaScript numbers used as board coordinates are modelled as Int
  (intermediate coordinates such as rank + offset may be negative).
* A thrown JavaScript exception is modelled as Except.error.  Exhaustion of
  the JavaScript call stack (a RangeError in Node, which is catchable like
  any other exception) is modelled by a fuel parameter: when the fuel hits
  zero the computation returns Except.error JsError.stackOverflow.  The
  try/catch in MoveValidator.isMoveLegal and Game.makeMove catches both
  kinds of error, exactly as the source catch clauses do.
* Mutation of the board object is modelled by explicit state passing:
  functions that mutate the board in the source return the new board, and
  an exception carries the board state current at the moment of the throw,
  because in JavaScript mutations performed before a throw persist.
* The grid cells own their pieces; Board.setPiece keeps the stored
  coordinates of the stored piece in sync with its cell, as the source does.
* The recursion isSquareAttacked -> King.getPossibleMoves/canCastle ->
  isKingInCheck -> isSquareAttacked in the source is unbounded.  It is
  broken here by making every move-generation function take the attack
  function as an explicit parameter (suffix O); the fueled function
  isSquareAttackedF ties the knot, spending one unit of fuel per nesting
  level of the attack computation.
-/

set_option maxHeartbeats 4000000
set_option maxRecDepth 8000

namespace AxChess

/-- Player colors, the strings "white" and "black" in the source. -/
inductive Color where
  | white
  | black
deriving DecidableEq, Repr

/-- The opposite color; the source writes color === "white" ? "black" : "white". -/
def Color.opp : Color → Color
  | .white => .black
  | .black => .white

/-- Piece types in English algebraic letters, as in the source classes. -/
inductive PieceType where
  | K
  | Q
  | R
  | B
  | N
  | P
deriving DecidableEq, Repr

/-- A piece as stored in a grid cell: type, color, stored coordinates and the
moved flag.  The cosmetic `value` field of Piece.js (evaluation weight) is
never read by the code under verification and is omitted. -/
structure Piece where
  type : PieceType
  color : Color
  rank : Int
  file : Int
  hasMoved : Bool
deriving DecidableEq, Repr

/-- Pawn.js stores direction at construction from the color; it is a pure
function of the color, modelled as such. -/
def Piece.direction (p : Piece) : Int :=
  if p.color = .white then 1 else -1

/-- Pawn.js promotionRank, fixed by the color at construction. -/
def Piece.promotionRank (p : Piece) : Int :=
  if p.color = .white then 7 else 0

/-- Per-side castling rights, the {kingside, queenside} object. -/
structure SideRights where
  kingside : Bool
  queenside : Bool
deriving DecidableEq, Repr

/-- The castlingRights object of Board.js. -/
structure CastlingRights where
  white : SideRights
  black : SideRights
deriving DecidableEq, Repr

def CastlingRights.get (cr : CastlingRights) : Color → SideRights
  | .white => cr.white
  | .black => cr.black

def CastlingRights.set (cr : CastlingRights) : Color → SideRights → CastlingRights
  | .white, s => { cr with white := s }
  | .black, s => { cr with black := s }

/-- One entry of Board.positionHistory: a FEN string with an occurrence count. -/
structure PositionEntry where
  fen : String
  count : Nat
deriving DecidableEq, Repr

/-- The Board object: the 8x8 grid (squares[rank][file]) plus the auxiliary
state of Board.js.  positionHistory is initialised to the empty list by the
constructor. -/
structure Board where
  squares : List (List (Option Piece))
  positionHistory : List PositionEntry
  castlingRights : CastlingRights
  enPassantTarget : Option String
  halfMoveClock : Nat
  fullMoveNumber : Nat
deriving DecidableEq, Repr

instance instDecEqExcept {ε α : Type} [DecidableEq ε] [DecidableEq α] :
    DecidableEq (Except ε α) := fun a b =>
  match a, b with
  | .error e, .error f =>
    if h : e = f then isTrue (h ▸ rfl) else isFalse (fun hh => h (Except.error.inj hh))
  | .ok x, .ok y =>
    if h : x = y then isTrue (h ▸ rfl) else isFalse (fun hh => h (Except.ok.inj hh))
  | .error _, .ok _ => isFalse (fun hh => Except.noConfusion hh)
  | .ok _, .error _ => isFalse (fun hh => Except.noConfusion hh)

/-- Errors a computation can raise: stackOverflow models exhaustion of the
JavaScript call stack by the unbounded check-detection recursion, jsError
models every `throw new Error(...)` (the message is not modelled).  Both are
catchable, as in Node. -/
inductive JsError where
  | stackOverflow
  | jsError
deriving DecidableEq, Repr

/-- Board.isValidPosition. -/
def isValidPosition (rank file : Int) : Bool :=
  0 ≤ rank && rank < 8 && 0 ≤ file && file < 8

/-- Board.getPiece for numeric coordinates.  Out-of-bounds reads return none
(all call sites in the verified paths are bounds-guarded first). -/
def Board.getPiece (b : Board) (rank file : Int) : Option Piece :=
  if isValidPosition rank file then
    ((b.squares.getD rank.toNat []).getD file.toNat none)
  else none

/-- Board.setPiece for numeric coordinates: stores the piece and keeps its
stored coordinates in sync, exactly as the source mutates piece.rank and
piece.file.  Out-of-bounds writes are dropped (never reached on verified
paths, which validate coordinates first). -/
def Board.setPiece (b : Board) (p : Option Piece) (rank file : Int) : Board :=
  if isValidPosition rank file then
    let stored := p.map fun q => { q with rank := rank, file := file }
    let row := (b.squares.getD rank.toNat []).set file.toNat stored
    { b with squares := b.squares.set rank.toNat row }
  else b

/-- Board.removePiece: returns the removed piece and the new board. -/
def Board.removePiece (b : Board) (rank file : Int) : Option Piece × Board :=
  (b.getPiece rank file, b.setPiece none rank file)

/-- Board.isEmpty. -/
def Board.isEmpty (b : Board) (rank file : Int) : Bool :=
  b.getPiece rank file = none

/-- Board.isOccupiedBy. -/
def Board.isOccupiedBy (b : Board) (rank file : Int) (c : Color) : Bool :=
  match b.getPiece rank file with
  | some p => p.color = c
  | none => false

/-- Board.findKing: first scan hit in (rank, file) lexicographic order,
exactly the double loop of the source. -/
def Board.findKing (b : Board) (c : Color) : Option (Int × Int) :=
  (List.range 8).findSome? fun r =>
    (List.range 8).findSome? fun f =>
      match b.getPiece (r : Int) (f : Int) with
      | some p => if p.type = .K ∧ p.color = c then some ((r : Int), (f : Int)) else none
      | none => none

/-- The FILES constant of chess-notation.js. -/
def fileChar (file : Int) : Char :=
  Char.ofNat (97 + file.toNat)

/-- positionToAlgebraic of chess-notation.js, e.g. (4, 3) to "e4".  The
source throws on out-of-range input; every call site in the verified code
passes in-bounds coordinates, so the function is modelled as total. -/
def positionToAlgebraic (file rank : Int) : String :=
  String.mk [fileChar file, Char.ofNat (49 + rank.toNat)]

/-- A move as produced by the getPossibleMoves generators.  The source move
objects also carry a reference to the moving piece; no consumer of a
generated move reads that field, so it is omitted here. -/
structure GenMove where
  fromRank : Int
  fromFile : Int
  toRank : Int
  toFile : Int
  capturedPiece : Option Piece
  isPromotion : Bool
  promotionPiece : Option PieceType
  isDoubleStep : Bool
  isEnPassant : Bool
  isCastling : Bool
  isKingside : Bool
deriving DecidableEq, Repr

/-- Builds a plain generated move with all special flags off. -/
def mkGenMove (fromRank fromFile toRank toFile : Int) (cap : Option Piece) : GenMove :=
  ⟨fromRank, fromFile, toRank, toFile, cap, false, none, false, false, false, false⟩

/-- Piece.isPathClear: walks the squares strictly between the piece and the
destination.  The source walks with a while loop in unit steps; for the
aligned destinations it is called on this equals checking the
max(|dr|,|df|) - 1 intermediate squares, which is how it is written here. -/
def isPathClear (p : Piece) (toRank toFile : Int) (b : Board) : Bool :=
  let rankDiff := toRank - p.rank
  let fileDiff := toFile - p.file
  let rankStep : Int := if rankDiff = 0 then 0 else if rankDiff > 0 then 1 else -1
  let fileStep : Int := if fileDiff = 0 then 0 else if fileDiff > 0 then 1 else -1
  let steps := max rankDiff.natAbs fileDiff.natAbs
  (List.range (steps - 1)).all fun i =>
    b.isEmpty (p.rank + rankStep * ((i : Int) + 1)) (p.file + fileStep * ((i : Int) + 1))

/-- Piece.isDiagonalMove. -/
def isDiagonalMove (p : Piece) (toRank toFile : Int) : Bool :=
  let rankDiff := (toRank - p.rank).natAbs
  let fileDiff := (toFile - p.file).natAbs
  rankDiff = fileDiff && rankDiff > 0

/-- Piece.isStraightMove. -/
def isStraightMove (p : Piece) (toRank toFile : Int) : Bool :=
  (toRank = p.rank && toFile ≠ p.file) || (toFile = p.file && toRank ≠ p.rank)

/-- Pawn.canCaptureEnPassant: Board has no positionToAlgebraic method, so the
source always takes the String.fromCharCode fallback, which produces the
standard algebraic name of the destination square. -/
def canCaptureEnPassant (p : Piece) (toRank toFile : Int) (b : Board) : Bool :=
  let targetSquare := String.mk [Char.ofNat (97 + toFile.toNat), Char.ofNat (49 + toRank.toNat)]
  if b.enPassantTarget ≠ some targetSquare then false
  else
    match b.getPiece p.rank toFile with
    | some adj => adj.type = .P && adj.color ≠ p.color
    | none => false

/-- Pawn.canPromote. -/
def canPromote (p : Piece) (toRank : Int) : Bool :=
  toRank = p.promotionRank

/-- Pawn.isValidMove. -/
def pawnIsValidMove (p : Piece) (toRank toFile : Int) (b : Board) : Bool :=
  let rankDiff := toRank - p.rank
  let fileDiff := (toFile - p.file).natAbs
  if rankDiff * p.direction ≤ 0 then false
  else if rankDiff = p.direction ∧ fileDiff = 0 then b.isEmpty toRank toFile
  else if rankDiff = 2 * p.direction ∧ fileDiff = 0 ∧ ¬p.hasMoved then
    b.isEmpty (p.rank + p.direction) p.file && b.isEmpty toRank toFile
  else if rankDiff = p.direction ∧ fileDiff = 1 then
    (match b.getPiece toRank toFile with
     | some target => if target.color ≠ p.color then true else canCaptureEnPassant p toRank toFile b
     | none => canCaptureEnPassant p toRank toFile b)
  else false

/-- Knight.isValidMove. -/
def knightIsValidMove (p : Piece) (toRank toFile : Int) : Bool :=
  let rankDiff := (toRank - p.rank).natAbs
  let fileDiff := (toFile - p.file).natAbs
  (rankDiff = 2 && fileDiff = 1) || (rankDiff = 1 && fileDiff = 2)

/-- The four promotion choices, in source order. -/
def promotionChoices : List PieceType := [.Q, .R, .B, .N]

/-- Pawn.getPossibleMoves: forward push (with promotion fan-out), double step
from the start square, diagonal captures and en passant. -/
def pawnPossibleMoves (b : Board) (p : Piece) : List GenMove :=
  let oneStepRank := p.rank + p.direction
  let forward :=
    if isValidPosition oneStepRank p.file && b.isEmpty oneStepRank p.file then
      let single :=
        if canPromote p oneStepRank then
          promotionChoices.map fun pc =>
            { mkGenMove p.rank p.file oneStepRank p.file none with
                isPromotion := true, promotionPiece := some pc }
        else [mkGenMove p.rank p.file oneStepRank p.file none]
      let twoStepRank := p.rank + 2 * p.direction
      let double :=
        if ¬p.hasMoved && isValidPosition twoStepRank p.file && b.isEmpty twoStepRank p.file then
          [{ mkGenMove p.rank p.file twoStepRank p.file none with isDoubleStep := true }]
        else []
      single ++ double
    else []
  let captures :=
    ([-1, 1] : List Int).flatMap fun fileOffset =>
      let captureFile := p.file + fileOffset
      let captureRank := p.rank + p.direction
      if isValidPosition captureRank captureFile then
        match b.getPiece captureRank captureFile with
        | some target =>
          if target.color ≠ p.color then
            if canPromote p captureRank then
              promotionChoices.map fun pc =>
                { mkGenMove p.rank p.file captureRank captureFile (some target) with
                    isPromotion := true, promotionPiece := some pc }
            else [mkGenMove p.rank p.file captureRank captureFile (some target)]
          else []
        | none =>
          if canCaptureEnPassant p captureRank captureFile b then
            [{ mkGenMove p.rank p.file captureRank captureFile (b.getPiece p.rank captureFile) with
                isEnPassant := true }]
          else []
      else []
  forward ++ captures

/-- The eight knight offsets, in source order. -/
def knightOffsets : List (Int × Int) :=
  [(-2, -1), (-2, 1), (-1, -2), (-1, 2), (1, -2), (1, 2), (2, -1), (2, 1)]

/-- Knight.getPossibleMoves. -/
def knightPossibleMoves (b : Board) (p : Piece) : List GenMove :=
  knightOffsets.flatMap fun off =>
    let toRank := p.rank + off.1
    let toFile := p.file + off.2
    if isValidPosition toRank toFile then
      match b.getPiece toRank toFile with
      | some target =>
        if target.color ≠ p.color then [mkGenMove p.rank p.file toRank toFile (some target)]
        else []
      | none => [mkGenMove p.rank p.file toRank toFile none]
    else []

/-- One ray of a sliding piece: walks outward from distance 1, stopping at
the board edge, at an own piece (excluded) or at an enemy piece (included).
The Nat argument counts the remaining steps (the source loops distance
1..7). -/
def slideRay (b : Board) (p : Piece) (dr df : Int) : Nat → Int → List GenMove
  | 0, _ => []
  | n + 1, distance =>
    let toRank := p.rank + dr * distance
    let toFile := p.file + df * distance
    if isValidPosition toRank toFile then
      match b.getPiece toRank toFile with
      | none => mkGenMove p.rank p.file toRank toFile none ::
          slideRay b p dr df n (distance + 1)
      | some target =>
        if target.color ≠ p.color then [mkGenMove p.rank p.file toRank toFile (some target)]
        else []
    else []

/-- Rook.getPossibleMoves direction set. -/
def rookDirections : List (Int × Int) := [(-1, 0), (1, 0), (0, -1), (0, 1)]

/-- Bishop.getPossibleMoves direction set. -/
def bishopDirections : List (Int × Int) := [(-1, -1), (-1, 1), (1, -1), (1, 1)]

/-- Queen and King direction set (all eight directions, source order). -/
def eightDirections : List (Int × Int) :=
  [(-1, -1), (-1, 0), (-1, 1), (0, -1), (0, 1), (1, -1), (1, 0), (1, 1)]

/-- Sliding move generation over a direction set. -/
def slidingMoves (b : Board) (p : Piece) (dirs : List (Int × Int)) : List GenMove :=
  dirs.flatMap fun d => slideRay b p d.1 d.2 7 1

def rookPossibleMoves (b : Board) (p : Piece) : List GenMove :=
  slidingMoves b p rookDirections

def bishopPossibleMoves (b : Board) (p : Piece) : List GenMove :=
  slidingMoves b p bishopDirections

def queenPossibleMoves (b : Board) (p : Piece) : List GenMove :=
  slidingMoves b p eightDirections

/-- The attack function parameter: isSquareAttacked(board, rank, file,
attackingColor), abstracted so that the mutually recursive knot of the
source (attack scan, king move generation, castling, check detection) can be
tied with fuel in one place. -/
abbrev AttackFn := Board → Int → Int → Color → Except JsError Bool

/-- Board.isKingInCheck, parameterized by the attack function. -/
def kingInCheckO (att : AttackFn) (b : Board) (c : Color) : Except JsError Bool :=
  match b.findKing c with
  | none => Except.ok false
  | some kp => att b kp.1 kp.2 c.opp

/-- King.canCastle, parameterized by the attack function.  Mirrors the source
order of checks: moved king, king in check, castling rights, rook presence
and state, empty path between king and rook, then the two transit squares. -/
def canCastleO (att : AttackFn) (b : Board) (k : Piece) (isKingside : Bool) :
    Except JsError Bool :=
  if k.hasMoved then Except.ok false
  else
    (kingInCheckO att b k.color).bind fun inChk =>
    if inChk then Except.ok false
    else
      let rights := b.castlingRights.get k.color
      if isKingside && !rights.kingside then Except.ok false
      else if !isKingside && !rights.queenside then Except.ok false
      else
        let rookFile : Int := if isKingside then 7 else 0
        match b.getPiece k.rank rookFile with
        | none => Except.ok false
        | some rook =>
          if ¬(rook.type = .R ∧ rook.color = k.color ∧ ¬rook.hasMoved) then Except.ok false
          else
            let startFile := min k.file rookFile + 1
            let endFile := max k.file rookFile - 1
            let pathClear := (List.range (endFile + 1 - startFile).toNat).all fun i =>
              b.isEmpty k.rank (startFile + (i : Int))
            if ¬pathClear then Except.ok false
            else
              let dir : Int := if isKingside then 1 else -1
              (att b k.rank (k.file + dir) k.color.opp).bind fun a1 =>
              if a1 then Except.ok false
              else
                (att b k.rank (k.file + 2 * dir) k.color.opp).bind fun a2 =>
                if a2 then Except.ok false else Except.ok true

/-- King normal destinations: the eight adjacent squares accepted by
canMoveTo (bounds, no own piece, distance one). -/
def kingNormalMoves (b : Board) (p : Piece) : List GenMove :=
  eightDirections.flatMap fun off =>
    let toRank := p.rank + off.1
    let toFile := p.file + off.2
    if isValidPosition toRank toFile && !(b.isOccupiedBy toRank toFile p.color) &&
        max (toRank - p.rank).natAbs (toFile - p.file).natAbs = 1 then
      [mkGenMove p.rank p.file toRank toFile (b.getPiece toRank toFile)]
    else []

/-- King.getPossibleMoves: the eight normal moves, then the castling block
guarded by hasMoved and isKingInCheck, exactly as in the source. -/
def kingPossibleMovesO (att : AttackFn) (b : Board) (p : Piece) :
    Except JsError (List GenMove) :=
  let normal := kingNormalMoves b p
  if p.hasMoved then Except.ok normal
  else
    (kingInCheckO att b p.color).bind fun inChk =>
    if inChk then Except.ok normal
    else
      (canCastleO att b p true).bind fun ks =>
      let withKs :=
        if ks then
          normal ++ [{ mkGenMove p.rank p.file p.rank (p.file + 2) none with
              isCastling := true, isKingside := true }]
        else normal
      (canCastleO att b p false).bind fun qs =>
      if qs then
        Except.ok (withKs ++ [{ mkGenMove p.rank p.file p.rank (p.file - 2) none with
            isCastling := true, isKingside := false }])
      else Except.ok withKs

/-- Piece.getPossibleMoves dispatch over the six variants. -/
def getPossibleMovesO (att : AttackFn) (b : Board) (p : Piece) :
    Except JsError (List GenMove) :=
  match p.type with
  | .P => Except.ok (pawnPossibleMoves b p)
  | .N => Except.ok (knightPossibleMoves b p)
  | .B => Except.ok (bishopPossibleMoves b p)
  | .R => Except.ok (rookPossibleMoves b p)
  | .Q => Except.ok (queenPossibleMoves b p)
  | .K => kingPossibleMovesO att b p

/-- Per-variant isValidMove dispatch, parameterized by the attack function
(only the king variant consults it, through canCastle). -/
def isValidMoveO (att : AttackFn) (p : Piece) (toRank toFile : Int) (b : Board) :
    Except JsError Bool :=
  match p.type with
  | .P => Except.ok (pawnIsValidMove p toRank toFile b)
  | .N => Except.ok (knightIsValidMove p toRank toFile)
  | .B => Except.ok (isDiagonalMove p toRank toFile && isPathClear p toRank toFile b)
  | .R => Except.ok (isStraightMove p toRank toFile && isPathClear p toRank toFile b)
  | .Q => Except.ok ((isStraightMove p toRank toFile || isDiagonalMove p toRank toFile) &&
      isPathClear p toRank toFile b)
  | .K =>
    let distRank := (toRank - p.rank).natAbs
    let distFile := (toFile - p.file).natAbs
    if max distRank distFile = 1 then Except.ok true
    else if distRank = 0 ∧ distFile = 2 then canCastleO att b p (toFile > p.file)
    else Except.ok false

/-- Piece.canMoveTo: bounds, own-color occupancy, then the variant rule. -/
def canMoveToO (att : AttackFn) (p : Piece) (toRank toFile : Int) (b : Board) :
    Except JsError Bool :=
  if ¬isValidPosition toRank toFile then Except.ok false
  else if b.isOccupiedBy toRank toFile p.color then Except.ok false
  else isValidMoveO att p toRank toFile b

/-- All 64 squares in the scan order of Board.isSquareAttacked (rank-major). -/
def allSquares : List (Int × Int) :=
  (List.range 8).flatMap fun r => (List.range 8).map fun f => ((r : Int), (f : Int))

/-- The scan loop of Board.isSquareAttacked over an explicit square list:
for each piece of the attacking color, generate its raw destinations and
test whether the target square is among them.  An exception raised by move
generation aborts the scan, as a thrown error aborts the source loop. -/
def scanSquares (att : AttackFn) (b : Board) (tr tf : Int) (ac : Color) :
    List (Int × Int) → Except JsError Bool
  | [] => Except.ok false
  | sq :: rest =>
    match b.getPiece sq.1 sq.2 with
    | some p =>
      if p.color = ac then
        match getPossibleMovesO att b p with
        | Except.error e => Except.error e
        | Except.ok moves =>
          if moves.any fun mv => mv.toRank = tr && mv.toFile = tf then Except.ok true
          else scanSquares att b tr tf ac rest
      else scanSquares att b tr tf ac rest
    | none => scanSquares att b tr tf ac rest

/-- Board.isSquareAttacked with fuel: one unit of fuel per nesting level of
the attack computation; fuel zero models the stack-overflow RangeError. -/
def isSquareAttackedF : Nat → AttackFn
  | 0 => fun _ _ _ _ => Except.error .stackOverflow
  | n + 1 => fun b r f ac => scanSquares (isSquareAttackedF n) b r f ac allSquares

/-- Board.isKingInCheck at a given fuel. -/
def isKingInCheckF (fuel : Nat) (b : Board) (c : Color) : Except JsError Bool :=
  kingInCheckO (isSquareAttackedF fuel) b c

/-- Piece.getPossibleMoves at a given fuel. -/
def getPossibleMovesF (fuel : Nat) (b : Board) (p : Piece) : Except JsError (List GenMove) :=
  getPossibleMovesO (isSquareAttackedF fuel) b p

/-- Piece.canMoveTo at a given fuel. -/
def canMoveToF (fuel : Nat) (p : Piece) (toRank toFile : Int) (b : Board) :
    Except JsError Bool :=
  canMoveToO (isSquareAttackedF fuel) p toRank toFile b

/-- King.canCastle at a given fuel. -/
def canCastleF (fuel : Nat) (b : Board) (k : Piece) (isKingside : Bool) :
    Except JsError Bool :=
  canCastleO (isSquareAttackedF fuel) b k isKingside

/-- Helper for Board.initializeBoard. -/
def mkPiece (t : PieceType) (c : Color) (rank file : Int) : Option Piece :=
  some ⟨t, c, rank, file, false⟩

/-- Board.initializeBoard plus the constructor defaults: the standard start
position, full castling rights, no en-passant target, zeroed clocks and an
empty position history. -/
def initialBoard : Board where
  squares :=
    [ [mkPiece .R .white 0 0, mkPiece .N .white 0 1, mkPiece .B .white 0 2,
       mkPiece .Q .white 0 3, mkPiece .K .white 0 4, mkPiece .B .white 0 5,
       mkPiece .N .white 0 6, mkPiece .R .white 0 7],
      [mkPiece .P .white 1 0, mkPiece .P .white 1 1, mkPiece .P .white 1 2,
       mkPiece .P .white 1 3, mkPiece .P .white 1 4, mkPiece .P .white 1 5,
       mkPiece .P .white 1 6, mkPiece .P .white 1 7],
      [none, none, none, none, none, none, none, none],
      [none, none, none, none, none, none, none, none],
      [none, none, none, none, none, none, none, none],
      [none, none, none, none, none, none, none, none],
      [mkPiece .P .black 6 0, mkPiece .P .black 6 1, mkPiece .P .black 6 2,
       mkPiece .P .black 6 3, mkPiece .P .black 6 4, mkPiece .P .black 6 5,
       mkPiece .P .black 6 6, mkPiece .P .black 6 7],
      [mkPiece .R .black 7 0, mkPiece .N .black 7 1, mkPiece .B .black 7 2,
       mkPiece .Q .black 7 3, mkPiece .K .black 7 4, mkPiece .B .black 7 5,
       mkPiece .N .black 7 6, mkPiece .R .black 7 7] ]
  positionHistory := []
  castlingRights := ⟨⟨true, true⟩, ⟨true, true⟩⟩
  enPassantTarget := none
  halfMoveClock := 0
  fullMoveNumber := 1

/-! ## Board mutation: makeMove and its helpers -/

/-- A move request as consumed by MoveValidator.isMoveLegal and
Board.makeMove: coordinates, the asserted mover color and an optional
promotion choice. -/
structure MoveReq where
  fromRank : Int
  fromFile : Int
  toRank : Int
  toFile : Int
  color : Color
  promotion : Option PieceType
deriving DecidableEq, Repr

/-- The undo record returned by Board.makeMove. -/
structure MoveInfo where
  piece : Piece
  capturedPiece : Option Piece
  fromRank : Int
  fromFile : Int
  toRank : Int
  toFile : Int
  castlingRights : CastlingRights
  enPassantTarget : Option String
  halfMoveClock : Nat
  isCastling : Bool
  rookMove : Option (Int × Int)
  isEnPassant : Bool
  isPromotion : Bool
  promotionPiece : Option Piece
deriving DecidableEq, Repr

/-- Board.createPiece: a fresh piece with hasMoved false, as each piece
constructor sets. -/
def createPiece (t : PieceType) (c : Color) (rank file : Int) : Piece :=
  ⟨t, c, rank, file, false⟩

/-- Board.updateCastlingRights. -/
def updateCastlingRights (p : Piece) (fromRank fromFile toRank toFile : Int)
    (cr : CastlingRights) : CastlingRights :=
  let cr1 :=
    if p.type = .K then cr.set p.color ⟨false, false⟩ else cr
  let cr2 :=
    if p.type = .R then
      if fromFile = 0 then cr1.set p.color { cr1.get p.color with queenside := false }
      else if fromFile = 7 then cr1.set p.color { cr1.get p.color with kingside := false }
      else cr1
    else cr1
  if toRank = 0 ∨ toRank = 7 then
    let c : Color := if toRank = 0 then .white else .black
    if toFile = 0 then cr2.set c { cr2.get c with queenside := false }
    else if toFile = 7 then cr2.set c { cr2.get c with kingside := false }
    else cr2
  else cr2

/-- Board.updateEnPassantTarget. -/
def updateEnPassantTarget (p : Piece) (fromRank toRank fromFile : Int) : Option String :=
  if p.type = .P ∧ (toRank - fromRank).natAbs = 2 then
    some (positionToAlgebraic fromFile ((fromRank + toRank) / 2))
  else none

/-- Board.updateCounters: the half-move clock resets on a pawn move or on a
capture at the destination square, else increments; the full-move number
increments after a black move. -/
def Board.updateCounters (b : Board) (p : Piece) (captured : Option Piece) : Board :=
  { b with
      halfMoveClock := if p.type = .P ∨ captured ≠ none then 0 else b.halfMoveClock + 1,
      fullMoveNumber := if p.color = .black then b.fullMoveNumber + 1 else b.fullMoveNumber }

/-- Board.handleSpecialMoves: castling rook relocation, en-passant removal of
the jumped pawn, promotion substitution, then the castling-rights and
en-passant-target updates.  The three special cases are sequential
independent ifs in the source; their guards are mutually exclusive. -/
def Board.handleSpecialMoves (b : Board) (m : MoveReq) (info : MoveInfo) :
    MoveInfo × Board :=
  let piece := info.piece
  let step1 :=
    if piece.type = .K ∧ (m.toFile - m.fromFile).natAbs = 2 then
      let isKingside := m.toFile > m.fromFile
      let rookFromFile : Int := if isKingside then 7 else 0
      let rookToFile : Int := if isKingside then 5 else 3
      let rb := b.removePiece m.fromRank rookFromFile
      let b1 := rb.2.setPiece rb.1 m.fromRank rookToFile
      ({ info with isCastling := true, rookMove := some (rookFromFile, rookToFile) }, b1)
    else (info, b)
  let step2 :=
    if piece.type = .P ∧ m.toFile ≠ m.fromFile ∧ step1.1.capturedPiece = none then
      let rb := step1.2.removePiece m.fromRank m.toFile
      ({ step1.1 with capturedPiece := rb.1, isEnPassant := true }, rb.2)
    else step1
  let step3 :=
    if piece.type = .P ∧ (m.toRank = 0 ∨ m.toRank = 7) then
      let promotionType := m.promotion.getD .Q
      let promoted := createPiece promotionType piece.color m.toRank m.toFile
      ({ step2.1 with isPromotion := true, promotionPiece := some promoted },
        step2.2.setPiece (some promoted) m.toRank m.toFile)
    else step2
  let b3 := step3.2
  let b4 := { b3 with
    castlingRights :=
      updateCastlingRights piece m.fromRank m.fromFile m.toRank m.toFile b3.castlingRights }
  (step3.1, { b4 with
    enPassantTarget := updateEnPassantTarget piece m.fromRank m.toRank m.fromFile })

/-- Board.makeMove: relocates the piece, handles the special rules, updates
the counters and sets the moved flag of the moved piece.  Throws (error)
when no piece stands on the source square.  The moved-flag mutation of the
source acts on the piece object, which sits at the destination cell unless
promotion substituted a fresh piece there. -/
def Board.makeMoveF (b : Board) (m : MoveReq) : Except JsError (MoveInfo × Board) :=
  match b.getPiece m.fromRank m.fromFile with
  | none => Except.error .jsError
  | some piece =>
    let captured := b.getPiece m.toRank m.toFile
    let info0 : MoveInfo :=
      ⟨piece, captured, m.fromRank, m.fromFile, m.toRank, m.toFile,
        b.castlingRights, b.enPassantTarget, b.halfMoveClock,
        false, none, false, false, none⟩
    let b1 := (b.removePiece m.fromRank m.fromFile).2
    let b2 := b1.setPiece (some piece) m.toRank m.toFile
    let sp := b2.handleSpecialMoves m info0
    let b4 := sp.2.updateCounters piece captured
    let b5 :=
      if sp.1.isPromotion then b4
      else
        match b4.getPiece m.toRank m.toFile with
        | some q => b4.setPiece (some { q with hasMoved := true }) m.toRank m.toFile
        | none => b4
    Except.ok ({ sp.1 with piece := { sp.1.piece with hasMoved := true } }, b5)

/-- FEN letter of a piece: uppercase for white, lowercase for black. -/
def pieceFenChar (p : Piece) : Char :=
  match p.color, p.type with
  | .white, .K => 'K'
  | .white, .Q => 'Q'
  | .white, .R => 'R'
  | .white, .B => 'B'
  | .white, .N => 'N'
  | .white, .P => 'P'
  | .black, .K => 'k'
  | .black, .Q => 'q'
  | .black, .R => 'r'
  | .black, .B => 'b'
  | .black, .N => 'n'
  | .black, .P => 'p'

/-- One rank of Board.toFEN: pieces interleaved with empty-run counts. -/
def fenRank (b : Board) (r : Int) : String :=
  let st := (List.range 8).foldl
    (fun (acc : String × Nat) f =>
      match b.getPiece r (f : Int) with
      | some p =>
        let flushed := if acc.2 > 0 then acc.1 ++ Nat.repr acc.2 else acc.1
        (flushed.push (pieceFenChar p), 0)
      | none => (acc.1, acc.2 + 1))
    ("", 0)
  if st.2 > 0 then st.1 ++ Nat.repr st.2 else st.1

/-- Board.toFEN.  The source emits the piece placement only; the side to
move, castling rights, en-passant target and the clocks are left as a TODO
in the source and are not emitted. -/
def Board.toFEN (b : Board) : String :=
  String.intercalate "/" ((List.range 8).map fun i => fenRank b (7 - (i : Int)))

/-- Board.clone: builds a fresh Board (which the constructor fills with the
standard start position) and then copies only the occupied cells of the
source board over it.  Cells empty in the source board therefore keep the
fresh start-position pieces; the position history of the clone is the empty
list of the fresh board.  The auxiliary scalar state is copied. -/
def Board.clone (b : Board) : Board :=
  { squares :=
      (List.range 8).map fun r =>
        (List.range 8).map fun f =>
          match b.getPiece (Int.ofNat r) (Int.ofNat f) with
          | some p => some p
          | none => (initialBoard.squares.getD r []).getD f none,
    positionHistory := [],
    castlingRights := b.castlingRights,
    enPassantTarget := b.enPassantTarget,
    halfMoveClock := b.halfMoveClock,
    fullMoveNumber := b.fullMoveNumber }

/-! ## MoveValidator -/

/-- The enriched move produced by MoveValidator.enrichMoveData: the request
fields plus derived data and flags.  The source field `notation` is called
`san` here. -/
structure EnrichedMove where
  fromRank : Int
  fromFile : Int
  toRank : Int
  toFile : Int
  color : Color
  promotion : Option PieceType
  pieceType : PieceType
  fromStr : String
  toStr : String
  capturedPieceType : Option PieceType
  isCapture : Bool
  isCheck : Bool
  isCheckmate : Bool
  isStalemate : Bool
  isCastling : Bool
  isKingside : Bool
  isEnPassant : Bool
  isPromotion : Bool
  promotionPiece : Option PieceType
  san : String
deriving DecidableEq, Repr

/-- The outcome of MoveValidator.isMoveLegal: an accepted enriched move or a
rejection reason code. -/
inductive VResult where
  | valid (em : EnrichedMove)
  | invalid (reason : String)
deriving DecidableEq, Repr

/-- MoveValidator.validateBasicMove: bounds, piece presence, ownership,
distinct squares, no friendly capture.  Returns the rejection reason code,
or none when the checks pass. -/
def validateBasicMoveF (b : Board) (m : MoveReq) : Option String :=
  if ¬(isValidPosition m.fromRank m.fromFile ∧ isValidPosition m.toRank m.toFile) then
    some "INVALID_POSITION"
  else
    match b.getPiece m.fromRank m.fromFile with
    | none => some "NO_PIECE"
    | some piece =>
      if piece.color ≠ m.color then some "WRONG_COLOR"
      else if m.fromRank = m.toRank ∧ m.fromFile = m.toFile then some "SAME_POSITION"
      else
        match b.getPiece m.toRank m.toFile with
        | some target => if target.color = m.color then some "FRIENDLY_FIRE" else none
        | none => none

/-- MoveValidator.validateKingSafety: temporarily applies the move on the
live board, asks whether the mover king is in check, then restores the two
cells.  Returns the check answer together with the board after the call: the
restored board on a normal return, the mutated board when the check
computation throws, since the source then propagates the exception without
undoing. -/
def validateKingSafetyF (fuel : Nat) (b : Board) (m : MoveReq) :
    Except JsError Bool × Board :=
  let piece := b.getPiece m.fromRank m.fromFile
  let captured := b.getPiece m.toRank m.toFile
  let b1 := b.setPiece none m.fromRank m.fromFile
  let b2 := b1.setPiece piece m.toRank m.toFile
  match isKingInCheckF fuel b2 m.color with
  | Except.error e => (Except.error e, b2)
  | Except.ok chk =>
    let b3 := b2.setPiece piece m.fromRank m.fromFile
    let b4 := b3.setPiece captured m.toRank m.toFile
    (Except.ok chk, b4)

/-- MoveValidator.validateSpecialMoves: castling, en passant and promotion
preconditions, first matching case returning.  Returns the rejection reason
or none. -/
def validateSpecialMovesF (fuel : Nat) (b : Board) (p : Piece) (m : MoveReq) :
    Except JsError (Option String) :=
  if p.type = .K ∧ (m.toFile - m.fromFile).natAbs = 2 then
    (canCastleF fuel b p (m.toFile > p.file)).map fun ok =>
      if ok then none else some "INVALID_CASTLING"
  else if p.type = .P ∧ m.toFile ≠ m.fromFile ∧ b.getPiece m.toRank m.toFile = none then
    Except.ok (if canCaptureEnPassant p m.toRank m.toFile b then none
      else some "INVALID_EN_PASSANT")
  else if p.type = .P ∧ (m.toRank = 0 ∨ m.toRank = 7) then
    Except.ok
      (if ¬canPromote p m.toRank then some "INVALID_PROMOTION"
       else
         match m.promotion with
         | some pr => if pr ∉ promotionChoices then some "INVALID_PROMOTION_PIECE" else none
         | none => none)
  else Except.ok none

/-- MoveValidator.isCheckmate evaluated on `board` with king safety checked
by the validator against its own bound board `tb`, exactly as the source
hasNoLegalMoves does.  Threads the validator board. -/
def isCheckmateF (fuel : Nat) (tb board : Board) (c : Color)
    (hnlm : Board → Board → Color → Except JsError Bool × Board) :
    Except JsError Bool × Board :=
  match isKingInCheckF fuel board c with
  | Except.error e => (Except.error e, tb)
  | Except.ok false => (Except.ok false, tb)
  | Except.ok true => hnlm tb board c

/-- MoveValidator.isStalemate, same conventions as isCheckmateF. -/
def isStalemateF (fuel : Nat) (tb board : Board) (c : Color)
    (hnlm : Board → Board → Color → Except JsError Bool × Board) :
    Except JsError Bool × Board :=
  match isKingInCheckF fuel board c with
  | Except.error e => (Except.error e, tb)
  | Except.ok true => (Except.ok false, tb)
  | Except.ok false => hnlm tb board c

/-- Inner loop of hasNoLegalMoves: walks the candidate moves of one piece,
running validateKingSafety on the validator board for each; stops with
ok false at the first safe move (a legal move exists), propagates an
exception, and reports none when the list is exhausted. -/
def hnlmMoves (fuel : Nat) (c : Color) (sq : Int × Int) :
    List GenMove → Board → Option (Except JsError Bool) × Board
  | [], tb => (none, tb)
  | mv :: mvs, tb =>
    match validateKingSafetyF fuel tb ⟨sq.1, sq.2, mv.toRank, mv.toFile, c, none⟩ with
    | (Except.error e, tb1) => (some (Except.error e), tb1)
    | (Except.ok chk, tb1) =>
      if chk then hnlmMoves fuel c sq mvs tb1
      else (some (Except.ok false), tb1)

/-- Outer loop of MoveValidator.hasNoLegalMoves over the square list:
generates the pseudo-legal moves from `board` and tests king safety on the
validator board. -/
def hnlmSquares (fuel : Nat) (board : Board) (c : Color) :
    List (Int × Int) → Board → Except JsError Bool × Board
  | [], tb => (Except.ok true, tb)
  | sq :: rest, tb =>
    match board.getPiece sq.1 sq.2 with
    | some p =>
      if p.color = c then
        match getPossibleMovesF fuel board p with
        | Except.error e => (Except.error e, tb)
        | Except.ok moves =>
          match hnlmMoves fuel c sq moves tb with
          | (some r, tb1) => (r, tb1)
          | (none, tb1) => hnlmSquares fuel board c rest tb1
      else hnlmSquares fuel board c rest tb
    | none => hnlmSquares fuel board c rest tb

/-- MoveValidator.hasNoLegalMoves(board, color) with validator board tb. -/
def hasNoLegalMovesF (fuel : Nat) (tb board : Board) (c : Color) :
    Except JsError Bool × Board :=
  hnlmSquares fuel board c allSquares tb

/-- MoveValidator.setMoveFlags: special-move flags, then the scratch-clone
simulation computing check, checkmate and stalemate flags for the opponent.
Threads the validator board through the mate search. -/
def setMoveFlagsF (fuel : Nat) (tb : Board) (em : EnrichedMove) (piece : Piece) :
    Except JsError EnrichedMove × Board :=
  let em1 :=
    if piece.type = .K ∧ (em.toFile - em.fromFile).natAbs = 2 then
      { em with isCastling := true, isKingside := em.toFile > em.fromFile }
    else em
  let em2 :=
    if piece.type = .P ∧ em.toFile ≠ em.fromFile ∧ em1.capturedPieceType = none then
      { em1 with isEnPassant := true }
    else em1
  let em3 :=
    if piece.type = .P ∧ (em.toRank = 0 ∨ em.toRank = 7) then
      { em2 with isPromotion := true, promotionPiece := some (em.promotion.getD .Q) }
    else em2
  let boardClone := tb.clone
  match boardClone.makeMoveF ⟨em.fromRank, em.fromFile, em.toRank, em.toFile,
      em.color, em.promotion⟩ with
  | Except.error e => (Except.error e, tb)
  | Except.ok mr =>
    let clone1 := mr.2
    let opponent := piece.color.opp
    match isKingInCheckF fuel clone1 opponent with
    | Except.error e => (Except.error e, tb)
    | Except.ok true =>
      let em4 := { em3 with isCheck := true }
      match isCheckmateF fuel tb clone1 opponent (hasNoLegalMovesF fuel) with
      | (Except.error e, tb1) => (Except.error e, tb1)
      | (Except.ok mate, tb1) =>
        (Except.ok (if mate then { em4 with isCheckmate := true } else em4), tb1)
    | Except.ok false =>
      match isStalemateF fuel tb clone1 opponent (hasNoLegalMovesF fuel) with
      | (Except.error e, tb1) => (Except.error e, tb1)
      | (Except.ok st, tb1) =>
        (Except.ok (if st then { em3 with isStalemate := true } else em3), tb1)

/-- Scan loop of MoveValidator.getDisambiguation: collects the coordinates of
same-type same-color pieces that could legally reach the destination,
checking geometry with canMoveTo and king safety on the validator board. -/
def disambigScan (fuel : Nat) (em : EnrichedMove) :
    List (Int × Int) → Board → List (Int × Int) →
    Except JsError (List (Int × Int)) × Board
  | [], tb, acc => (Except.ok acc, tb)
  | sq :: rest, tb, acc =>
    match tb.getPiece sq.1 sq.2 with
    | some p =>
      if p.type = em.pieceType ∧ p.color = em.color ∧
          ¬(sq.1 = em.fromRank ∧ sq.2 = em.fromFile) then
        match canMoveToF fuel p em.toRank em.toFile tb with
        | Except.error e => (Except.error e, tb)
        | Except.ok false => disambigScan fuel em rest tb acc
        | Except.ok true =>
          match validateKingSafetyF fuel tb
              ⟨sq.1, sq.2, em.toRank, em.toFile, em.color, none⟩ with
          | (Except.error e, tb1) => (Except.error e, tb1)
          | (Except.ok chk, tb1) =>
            if chk then disambigScan fuel em rest tb1 acc
            else disambigScan fuel em rest tb1 (acc ++ [sq])
      else disambigScan fuel em rest tb acc
    | none => disambigScan fuel em rest tb acc

/-- MoveValidator.getDisambiguation: empty for pawns, else minimal among
file letter, rank digit, full square. -/
def getDisambiguationF (fuel : Nat) (tb : Board) (em : EnrichedMove) :
    Except JsError String × Board :=
  if em.pieceType = .P then (Except.ok "", tb)
  else
    match disambigScan fuel em allSquares tb [] with
    | (Except.error e, tb1) => (Except.error e, tb1)
    | (Except.ok similar, tb1) =>
      if similar.isEmpty then (Except.ok "", tb1)
      else
        let sameFile := similar.any fun sp => sp.2 = em.fromFile
        let sameRank := similar.any fun sp => sp.1 = em.fromRank
        if ¬sameFile then (Except.ok (String.mk [fileChar em.fromFile]), tb1)
        else if ¬sameRank then (Except.ok (Nat.repr (em.fromRank + 1).toNat), tb1)
        else (Except.ok (positionToAlgebraic em.fromFile em.fromRank), tb1)

/-- Letter of a piece type in algebraic move text. -/
def pieceLetter (t : PieceType) : String :=
  match t with
  | .K => "K"
  | .Q => "Q"
  | .R => "R"
  | .B => "B"
  | .N => "N"
  | .P => "P"

/-- MoveValidator.generateAlgebraicNotation (field san): castling tokens, or
piece letter, disambiguation, capture marker, destination, promotion suffix
and check or mate suffix. -/
def genSanF (fuel : Nat) (tb : Board) (em : EnrichedMove) :
    Except JsError String × Board :=
  if em.isCastling then
    (Except.ok (if em.isKingside then "O-O" else "O-O-O"), tb)
  else
    match getDisambiguationF fuel tb em with
    | (Except.error e, tb1) => (Except.error e, tb1)
    | (Except.ok dis, tb1) =>
      let s0 := if em.pieceType ≠ .P then pieceLetter em.pieceType else ""
      let s1 := s0 ++ dis
      let s2 :=
        if em.isCapture then
          (if em.pieceType = .P then s1 ++ String.mk [fileChar em.fromFile] else s1) ++ "x"
        else s1
      let s3 := s2 ++ em.toStr
      let s4 :=
        if em.isPromotion then s3 ++ "=" ++ pieceLetter (em.promotionPiece.getD .Q)
        else s3
      let s5 :=
        if em.isCheckmate then s4 ++ "#"
        else if em.isCheck then s4 ++ "+"
        else s4
      (Except.ok s5, tb1)

/-- The base enriched record that MoveValidator.enrichMoveData builds from
the request before running the flag simulation (the object literal of the
source, named so the pipeline stages can be reasoned about separately). -/
def baseEnrichedMove (tb : Board) (m : MoveReq) (piece : Piece) : EnrichedMove :=
  let captured := tb.getPiece m.toRank m.toFile
  { fromRank := m.fromRank, fromFile := m.fromFile,
    toRank := m.toRank, toFile := m.toFile,
    color := m.color, promotion := m.promotion,
    pieceType := piece.type,
    fromStr := positionToAlgebraic m.fromFile m.fromRank,
    toStr := positionToAlgebraic m.toFile m.toRank,
    capturedPieceType := captured.map (fun cp => cp.type),
    isCapture := captured ≠ none,
    isCheck := false, isCheckmate := false, isStalemate := false,
    isCastling := false, isKingside := false, isEnPassant := false,
    isPromotion := false, promotionPiece := none, san := "" }

/-- MoveValidator.enrichMoveData: the base enriched record, the flag
simulation and the move text. -/
def enrichMoveDataF (fuel : Nat) (tb : Board) (m : MoveReq) (piece : Piece) :
    Except JsError EnrichedMove × Board :=
  match setMoveFlagsF fuel tb (baseEnrichedMove tb m piece) piece with
  | (Except.error e, tb1) => (Except.error e, tb1)
  | (Except.ok em1, tb1) =>
    match genSanF fuel tb1 em1 with
    | (Except.error e, tb2) => (Except.error e, tb2)
    | (Except.ok san, tb2) => (Except.ok { em1 with san := san }, tb2)

/-- The body of MoveValidator.isMoveLegal before its try/catch: the
short-circuiting pipeline of basic, geometric, king-safety and special-move
validation followed by enrichment. -/
def isMoveLegalRun (fuel : Nat) (b : Board) (m : MoveReq) :
    Except JsError VResult × Board :=
  match validateBasicMoveF b m with
  | some reason => (Except.ok (.invalid reason), b)
  | none =>
    match b.getPiece m.fromRank m.fromFile with
    | none => (Except.error .jsError, b)
    | some piece =>
      match canMoveToF fuel piece m.toRank m.toFile b with
      | Except.error e => (Except.error e, b)
      | Except.ok false => (Except.ok (.invalid "INVALID_PIECE_MOVE"), b)
      | Except.ok true =>
        match validateKingSafetyF fuel b m with
        | (Except.error e, b1) => (Except.error e, b1)
        | (Except.ok true, b1) => (Except.ok (.invalid "KING_IN_CHECK"), b1)
        | (Except.ok false, b1) =>
          match validateSpecialMovesF fuel b1 piece m with
          | Except.error e => (Except.error e, b1)
          | Except.ok (some reason) => (Except.ok (.invalid reason), b1)
          | Except.ok none =>
            match enrichMoveDataF fuel b1 m piece with
            | (Except.error e, b2) => (Except.error e, b2)
            | (Except.ok em, b2) => (Except.ok (.valid em), b2)

/-- MoveValidator.isMoveLegal: the pipeline wrapped in the catch clause that
turns any thrown error into the generic VALIDATION_ERROR rejection.  The
board state at the moment of the throw is kept, as mutations before a throw
persist in the source. -/
def isMoveLegalF (fuel : Nat) (b : Board) (m : MoveReq) : VResult × Board :=
  match isMoveLegalRun fuel b m with
  | (Except.ok r, b1) => (r, b1)
  | (Except.error _, b1) => (.invalid "VALIDATION_ERROR", b1)

/-- Inner loop of getAllLegalMoves: runs isMoveLegal for every candidate of
one piece, collecting the accepted enriched moves and threading the live
board (isMoveLegal never throws out of its catch). -/
def galmMoves (fuel : Nat) (c : Color) (sq : Int × Int) :
    List GenMove → Board → List EnrichedMove → Board × List EnrichedMove
  | [], tb, acc => (tb, acc)
  | mv :: mvs, tb, acc =>
    let md : MoveReq := ⟨sq.1, sq.2, mv.toRank, mv.toFile, c, mv.promotionPiece⟩
    match isMoveLegalF fuel tb md with
    | (.valid em, tb1) => galmMoves fuel c sq mvs tb1 (acc ++ [em])
    | (.invalid _, tb1) => galmMoves fuel c sq mvs tb1 acc

/-- Outer loop of MoveValidator.getAllLegalMoves over the square list.  The
pseudo-legal generation runs outside the isMoveLegal catch, so an exception
there propagates out of getAllLegalMoves. -/
def galmSquares (fuel : Nat) (c : Color) :
    List (Int × Int) → Board → List EnrichedMove →
    Except JsError (List EnrichedMove) × Board
  | [], tb, acc => (Except.ok acc, tb)
  | sq :: rest, tb, acc =>
    match tb.getPiece sq.1 sq.2 with
    | some p =>
      if p.color = c then
        match getPossibleMovesF fuel tb p with
        | Except.error e => (Except.error e, tb)
        | Except.ok moves =>
          let inner := galmMoves fuel c sq moves tb acc
          galmSquares fuel c rest inner.1 inner.2
      else galmSquares fuel c rest tb acc
    | none => galmSquares fuel c rest tb acc

/-- MoveValidator.getAllLegalMoves(color). -/
def getAllLegalMovesF (fuel : Nat) (b : Board) (c : Color) :
    Except JsError (List EnrichedMove) × Board :=
  galmSquares fuel c allSquares b []

/-! ## Game orchestrator (class Game of PLANNING.md) -/

/-- Per-game move statistics. -/
structure GameStats where
  totalMoves : Nat
  capturesWhite : Nat
  capturesBlack : Nat
  checksWhite : Nat
  checksBlack : Nat
  castlingWhite : Bool
  castlingBlack : Bool
deriving DecidableEq, Repr

/-- One history entry: the enriched validator move merged with the board
undo record plus the match metadata, as executeMove builds it. -/
structure GameMove where
  em : EnrichedMove
  info : MoveInfo
  moveNumber : Nat
  timestamp : Nat
  timeSpent : Nat
  player : Color
deriving DecidableEq, Repr

/-- The Game object.  Wall-clock instants are modelled as Nat milliseconds
supplied by the caller.  The random special-powers roster is not modelled:
no operation under verification reads it. -/
structure Game where
  id : String
  whiteId : String
  blackId : String
  whiteTime : Nat
  blackTime : Nat
  board : Board
  status : String
  currentTurn : Color
  result : String
  resultReason : Option String
  moves : List GameMove
  moveNumber : Nat
  startTime : Nat
  lastMoveTime : Nat
  endTime : Option Nat
  timeControl : Nat
  increment : Nat
  isRanked : Bool
  stats : GameStats
deriving DecidableEq, Repr

/-- The Game constructor with explicit id and clock origin. -/
def mkGame (id whiteId blackId : String) (timeControl increment : Nat)
    (isRanked : Bool) (now : Nat) : Game :=
  { id := id, whiteId := whiteId, blackId := blackId,
    whiteTime := timeControl, blackTime := timeControl,
    board := initialBoard,
    status := "active", currentTurn := .white,
    result := "*", resultReason := none,
    moves := [], moveNumber := 1,
    startTime := now, lastMoveTime := now, endTime := none,
    timeControl := timeControl, increment := increment, isRanked := isRanked,
    stats := ⟨0, 0, 0, 0, 0, false, false⟩ }

/-- Time remaining of the player of a color. -/
def Game.timeOf (g : Game) : Color → Nat
  | .white => g.whiteTime
  | .black => g.blackTime

def Game.setTimeOf (g : Game) : Color → Nat → Game
  | .white, t => { g with whiteTime := t }
  | .black, t => { g with blackTime := t }

/-- Game.getPlayerColor. -/
def Game.getPlayerColor (g : Game) (playerId : String) : Option Color :=
  if g.whiteId = playerId then some .white
  else if g.blackId = playerId then some .black
  else none

/-- Id of the player whose turn it is. -/
def Game.currentPlayerId (g : Game) : String :=
  match g.currentTurn with
  | .white => g.whiteId
  | .black => g.blackId

/-- A move request as received by Game.makeMove: every field may be absent. -/
structure MoveData where
  fromRank : Option Int
  fromFile : Option Int
  toRank : Option Int
  toFile : Option Int
  promotion : Option PieceType
deriving DecidableEq, Repr

/-- Game.validateMoveRequest: active status, turn ownership, structural
completeness.  Returns the rejection reason or none. -/
def Game.validateMoveRequest (g : Game) (playerId : String) (md : MoveData) :
    Option String :=
  if g.status ≠ "active" then some "GAME_NOT_ACTIVE"
  else if g.currentPlayerId ≠ playerId then some "NOT_YOUR_TURN"
  else if md.fromRank = none ∨ md.fromFile = none ∨ md.toRank = none ∨ md.toFile = none then
    some "INVALID_MOVE_DATA"
  else none

/-- Game.endGame. -/
def Game.endGame (g : Game) (result : String) (reason : String) (now : Nat) : Game :=
  { g with
    status := "finished"
    result := result
    resultReason := some reason
    endTime := some now }

/-- Game.isDrawByRepetition: the count of the first position-history entry
whose FEN matches the current serialization, zero when absent. -/
def Game.isDrawByRepetition (g : Game) : Bool :=
  let currentPosition := g.board.toFEN
  let count :=
    match g.board.positionHistory.find? (fun e => e.fen = currentPosition) with
    | some entry => entry.count
    | none => 0
  count ≥ 3

/-- Game.isDrawByFiftyMoveRule: a per-ply counter compared to 50. -/
def Game.isDrawByFiftyMoveRule (g : Game) : Bool :=
  g.board.halfMoveClock ≥ 50

/-- Game.isDrawByInsufficientMaterial: the material census of the source,
including its deliberate same-color-bishop simplification. -/
def Game.isDrawByInsufficientMaterial (g : Game) : Bool :=
  let census := allSquares.foldl
    (fun (acc : List PieceType × List PieceType) sq =>
      match g.board.getPiece sq.1 sq.2 with
      | some p =>
        if p.type ≠ .K then
          if p.color = .white then (acc.1 ++ [p.type], acc.2) else (acc.1, acc.2 ++ [p.type])
        else acc
      | none => acc)
    ([], [])
  let w := census.1
  let bk := census.2
  if w = [] ∧ bk = [] then true
  else if (w.length = 1 ∧ (w = [.B] ∨ w = [.N]) ∧ bk = []) ∨
      (bk.length = 1 ∧ (bk = [.B] ∨ bk = [.N]) ∧ w = []) then true
  else if w = [.B] ∧ bk = [.B] then true
  else false

/-- Game.switchTurn: only while active; the move number increments when the
turn returns to white. -/
def Game.switchTurn (g : Game) : Game :=
  if g.status = "active" then
    let nt := g.currentTurn.opp
    { g with
      currentTurn := nt
      moveNumber := if nt = .white then g.moveNumber + 1 else g.moveNumber }
  else g

/-- Game.updateMoveStats. -/
def Game.updateMoveStats (g : Game) (em : EnrichedMove) : Game :=
  let s0 := { g.stats with totalMoves := g.stats.totalMoves + 1 }
  let s1 :=
    if em.isCapture then
      match g.currentTurn with
      | .white => { s0 with capturesWhite := s0.capturesWhite + 1 }
      | .black => { s0 with capturesBlack := s0.capturesBlack + 1 }
    else s0
  let s2 :=
    if em.isCheck then
      match g.currentTurn with
      | .white => { s1 with checksWhite := s1.checksWhite + 1 }
      | .black => { s1 with checksBlack := s1.checksBlack + 1 }
    else s1
  let s3 :=
    if em.isCastling then
      match g.currentTurn with
      | .white => { s2 with castlingWhite := true }
      | .black => { s2 with castlingBlack := true }
    else s2
  { g with stats := s3 }

/-- Game.updatePlayerTime: deducts the elapsed seconds (plus increment) of
the last move from its mover and flags a timeout loss at zero. -/
def Game.updatePlayerTime (g : Game) (now : Nat) : Game :=
  if g.timeControl > 0 then
    match g.moves.getLast? with
    | some lastMove =>
      let player := lastMove.player
      let newTime := (((g.timeOf player : Int) - lastMove.timeSpent + g.increment).toNat)
      let g1 := g.setTimeOf player newTime
      if newTime = 0 then
        let winner := match player with
          | .white => "0-1"
          | .black => "1-0"
        g1.endGame winner "timeout" now
      else g1
    | none => g
  else g

/-- Game.updateGameState: terminal conditions in the fixed source priority,
then the clock update. -/
def Game.updateGameState (g : Game) (em : EnrichedMove) (now : Nat) : Game :=
  let g1 :=
    if em.isCheckmate then
      g.endGame (match g.currentTurn with | .white => "1-0" | .black => "0-1") "checkmate" now
    else if em.isStalemate then g.endGame "1/2-1/2" "stalemate" now
    else if g.isDrawByRepetition then g.endGame "1/2-1/2" "threefold_repetition" now
    else if g.isDrawByFiftyMoveRule then g.endGame "1/2-1/2" "fifty_move_rule" now
    else if g.isDrawByInsufficientMaterial then g.endGame "1/2-1/2" "insufficient_material" now
    else g
  g1.updatePlayerTime now

/-- Result of Game.makeMove. -/
inductive MakeMoveResult where
  | rejected (reason : String)
  | accepted (em : EnrichedMove)
deriving DecidableEq, Repr

/-- Game.executeMove: applies the accepted move on the board, appends the
history entry and updates the statistics and the move clock origin.  An
exception from Board.makeMove propagates (to the Game.makeMove catch). -/
def Game.executeMove (g : Game) (em : EnrichedMove) (now : Nat) :
    Except JsError (Game) :=
  let timeSpent := (now - g.lastMoveTime) / 1000
  match g.board.makeMoveF ⟨em.fromRank, em.fromFile, em.toRank, em.toFile,
      em.color, em.promotion⟩ with
  | Except.error e => Except.error e
  | Except.ok mr =>
    let gm : GameMove :=
      { em := em, info := mr.1, moveNumber := g.moveNumber,
        timestamp := now, timeSpent := timeSpent, player := g.currentTurn }
    let g1 := { g with board := mr.2, moves := g.moves ++ [gm] }
    let g2 := g1.updateMoveStats em
    Except.ok { g2 with lastMoveTime := now }

/-- Game.makeMove: preliminary request validation, engine validation,
execution, terminal-state update and turn switch, wrapped in the catch that
reports EXECUTION_ERROR.  The validator operates on the live game board, so
its board output replaces the game board in every branch. -/
def Game.makeMoveF (fuel : Nat) (g : Game) (playerId : String) (md : MoveData)
    (now : Nat) : MakeMoveResult × Game :=
  match g.validateMoveRequest playerId md with
  | some reason => (.rejected reason, g)
  | none =>
    let req : MoveReq :=
      ⟨md.fromRank.getD 0, md.fromFile.getD 0, md.toRank.getD 0, md.toFile.getD 0,
        g.currentTurn, md.promotion⟩
    match isMoveLegalF fuel g.board req with
    | (.invalid reason, b1) => (.rejected reason, { g with board := b1 })
    | (.valid em, b1) =>
      let g1 := { g with board := b1 }
      match g1.executeMove em now with
      | Except.error _ => (.rejected "EXECUTION_ERROR", g1)
      | Except.ok g2 =>
        let g3 := g2.updateGameState em now
        let g4 := g3.switchTurn
        (.accepted em, g4)

/-- Result of Game.resign and Game.offerDraw. -/
inductive EndRequestResult where
  | failure
  | success (result : String) (reason : Option String)
deriving DecidableEq, Repr

/-- Game.resign: rejected while inactive or for an unknown player id;
otherwise the opponent wins by resignation. -/
def Game.resign (g : Game) (playerId : String) (now : Nat) :
    EndRequestResult × Game :=
  if g.status ≠ "active" then (.failure, g)
  else
    match g.getPlayerColor playerId with
    | none => (.failure, g)
    | some c =>
      let winner := match c with
        | .white => "0-1"
        | .black => "1-0"
      let g1 := g.endGame winner "resignation" now
      (.success g1.result g1.resultReason, g1)

/-- Game.offerDraw: rejected while inactive; otherwise the game immediately
ends as an agreed draw.  The source has a TODO in place of a real draw-offer
protocol and performs no player-id check. -/
def Game.offerDraw (g : Game) (playerId : String) (now : Nat) :
    EndRequestResult × Game :=
  if g.status ≠ "active" then (.failure, g)
  else
    let g1 := g.endGame "1/2-1/2" "draw_agreement" now
    (.success g1.result g1.resultReason, g1)

/-! ## Concrete boards, moves and games used by the theorems -/

/-- The request e2 to e4 by white. -/
def mvE2E4 : MoveReq := ⟨1, 4, 3, 4, .white, none⟩

/-- Shorthand for an occupied pawn cell. -/
def wp (r f : Int) (hm : Bool) : Option Piece := some ⟨.P, .white, r, f, hm⟩

def bp (r f : Int) (hm : Bool) : Option Piece := some ⟨.P, .black, r, f, hm⟩

/-- The start position mid-simulation of e2e4: the white pawn stands on e4
with e2 empty and its moved flag still false, everything else as at start.
This is the board state while validateKingSafety runs isKingInCheck. -/
def e2e4Mut : Board where
  squares :=
    [ [mkPiece .R .white 0 0, mkPiece .N .white 0 1, mkPiece .B .white 0 2,
       mkPiece .Q .white 0 3, mkPiece .K .white 0 4, mkPiece .B .white 0 5,
       mkPiece .N .white 0 6, mkPiece .R .white 0 7],
      [wp 1 0 false, wp 1 1 false, wp 1 2 false, wp 1 3 false,
       none, wp 1 5 false, wp 1 6 false, wp 1 7 false],
      [none, none, none, none, none, none, none, none],
      [none, none, none, none, wp 3 4 false, none, none, none],
      [none, none, none, none, none, none, none, none],
      [none, none, none, none, none, none, none, none],
      [bp 6 0 false, bp 6 1 false, bp 6 2 false, bp 6 3 false,
       bp 6 4 false, bp 6 5 false, bp 6 6 false, bp 6 7 false],
      [mkPiece .R .black 7 0, mkPiece .N .black 7 1, mkPiece .B .black 7 2,
       mkPiece .Q .black 7 3, mkPiece .K .black 7 4, mkPiece .B .black 7 5,
       mkPiece .N .black 7 6, mkPiece .R .black 7 7] ]
  positionHistory := []
  castlingRights := ⟨⟨true, true⟩, ⟨true, true⟩⟩
  enPassantTarget := none
  halfMoveClock := 0
  fullMoveNumber := 1

/-- A bare-kings position, reachable over the board: white king h1, black
king e7, both moved, all castling rights gone.  No white move can land on
e1, so every speculative clone keeps the fresh unmoved kings that
Board.clone resurrects on e1 and e8. -/
def kkBoard : Board where
  squares :=
    [ [none, none, none, none, none, none, none, some ⟨.K, .white, 0, 7, true⟩],
      [none, none, none, none, none, none, none, none],
      [none, none, none, none, none, none, none, none],
      [none, none, none, none, none, none, none, none],
      [none, none, none, none, none, none, none, none],
      [none, none, none, none, none, none, none, none],
      [none, none, none, none, some ⟨.K, .black, 6, 4, true⟩, none, none, none],
      [none, none, none, none, none, none, none, none] ]
  positionHistory := []
  castlingRights := ⟨⟨false, false⟩, ⟨false, false⟩⟩
  enPassantTarget := none
  halfMoveClock := 30
  fullMoveNumber := 40

/-- The scratch board of the setMoveFlags simulation for the candidate
h1-g1 on kkBoard: the clone (with the resurrected start pieces) after the
king move is applied to it. -/
def kkSimG1 : Board :=
  match kkBoard.clone.makeMoveF ⟨0, 7, 0, 6, .white, none⟩ with
  | Except.ok mr => mr.2
  | Except.error _ => kkBoard

/-- The simulation board for the candidate h1-g2 on kkBoard. -/
def kkSimG2 : Board :=
  match kkBoard.clone.makeMoveF ⟨0, 7, 1, 6, .white, none⟩ with
  | Except.ok mr => mr.2
  | Except.error _ => kkBoard

/-- The simulation board for the candidate h1-h2 on kkBoard. -/
def kkSimH2 : Board :=
  match kkBoard.clone.makeMoveF ⟨0, 7, 1, 7, .white, none⟩ with
  | Except.ok mr => mr.2
  | Except.error _ => kkBoard

/-- The undo record of the h1-g1 simulation move (the king captures the
knight that Board.clone resurrected on g1). -/
def kkInfoG1 : MoveInfo :=
  ⟨⟨.K, .white, 0, 7, true⟩, some ⟨.N, .white, 0, 6, false⟩, 0, 7, 0, 6,
    ⟨⟨false, false⟩, ⟨false, false⟩⟩, none, 30, false, none, false, false, none⟩

/-- The undo record of the h1-g2 simulation move (captures the resurrected
g2 pawn). -/
def kkInfoG2 : MoveInfo :=
  ⟨⟨.K, .white, 0, 7, true⟩, some ⟨.P, .white, 1, 6, false⟩, 0, 7, 1, 6,
    ⟨⟨false, false⟩, ⟨false, false⟩⟩, none, 30, false, none, false, false, none⟩

/-- The undo record of the h1-h2 simulation move (captures the resurrected
h2 pawn). -/
def kkInfoH2 : MoveInfo :=
  ⟨⟨.K, .white, 0, 7, true⟩, some ⟨.P, .white, 1, 7, false⟩, 0, 7, 1, 7,
    ⟨⟨false, false⟩, ⟨false, false⟩⟩, none, 30, false, none, false, false, none⟩

/-- The board after Board.makeMove applies e2e4 to the start position. -/
def e4Board : Board :=
  match initialBoard.makeMoveF mvE2E4 with
  | Except.ok mr => mr.2
  | Except.error _ => initialBoard

/-- A lone white pawn on e2 (witness board for the pawn-push attack
claim). -/
def pawnOnlyBoard : Board where
  squares :=
    [ [none, none, none, none, none, none, none, none],
      [none, none, none, none, wp 1 4 false, none, none, none],
      [none, none, none, none, none, none, none, none],
      [none, none, none, none, none, none, none, none],
      [none, none, none, none, none, none, none, none],
      [none, none, none, none, none, none, none, none],
      [none, none, none, none, none, none, none, none],
      [none, none, none, none, none, none, none, none] ]
  positionHistory := []
  castlingRights := ⟨⟨true, true⟩, ⟨true, true⟩⟩
  enPassantTarget := none
  halfMoveClock := 0
  fullMoveNumber := 1

/-- A fresh active game between alice and bob. -/
def activeGame : Game := mkGame "g1" "alice" "bob" 900 0 true 0

/-- A finished game (ended through offerDraw). -/
def finishedGame : Game := (activeGame.offerDraw "alice" 5).2

/-- A game played from the start: folds Game.makeMove over a list of
requests (player id, move data, wall-clock instant). -/
def runGame (fuel : Nat) (g0 : Game) (steps : List (String × MoveData × Nat)) : Game :=
  steps.foldl (fun g s => (Game.makeMoveF fuel g s.1 s.2.1 s.2.2).2) g0

/-! ## Theorems -/

/-- The move generation of an unmoved king propagates an error of the
check query made by its castling guard. -/
theorem kingMovegenError (att : AttackFn) (b : Board) (p : Piece) (e : JsError)
    (ht : p.type = .K) (hm : p.hasMoved = false)
    (hc : kingInCheckO att b p.color = Except.error e) :
    getPossibleMovesO att b p = Except.error e := by
  simp only [getPossibleMovesO, ht, kingPossibleMovesO, hm, hc, if_false, Bool.false_eq_true,
    Except.bind]

/-- The attack scan aborts with the error of the first move generation that
throws, as the thrown exception aborts the source loop. -/
theorem scanError (att : AttackFn) (b : Board) (tr tf : Int) (ac : Color)
    (sq : Int × Int) (rest : List (Int × Int)) (p : Piece) (e : JsError)
    (hget : b.getPiece sq.1 sq.2 = some p) (hc : p.color = ac)
    (hmv : getPossibleMovesO att b p = Except.error e) :
    scanSquares att b tr tf ac (sq :: rest) = Except.error e := by
  simp only [scanSquares, hget, hc, if_true, hmv]

/-- On the start position, isKingInCheck exhausts every stack budget for
both colors: the attack scan reaches the unmoved enemy king, whose castling
guard asks for its own check status, which scans back to the first king. -/
theorem checkDiverges : ∀ n : Nat,
    isKingInCheckF n initialBoard .white = Except.error .stackOverflow ∧
    isKingInCheckF n initialBoard .black = Except.error .stackOverflow := by
  intro n
  induction n with
  | zero => exact ⟨rfl, rfl⟩
  | succ n ih =>
    constructor
    · show scanSquares (isSquareAttackedF n) initialBoard 0 4 .black (allSquares.drop 60)
        = Except.error .stackOverflow
      exact scanError _ _ _ _ _ _ _ ⟨.K, .black, 7, 4, false⟩ .stackOverflow rfl rfl
        (kingMovegenError _ _ _ _ rfl rfl ih.2)
    · show scanSquares (isSquareAttackedF n) initialBoard 7 4 .white (allSquares.drop 4)
        = Except.error .stackOverflow
      exact scanError _ _ _ _ _ _ _ ⟨.K, .white, 0, 4, false⟩ .stackOverflow rfl rfl
        (kingMovegenError _ _ _ _ rfl rfl ih.1)

/-- Same divergence on the e2e4 simulation board: both kings are still
unmoved there, so the mutual recursion again exhausts every stack budget. -/
theorem checkDivergesMut : ∀ n : Nat,
    isKingInCheckF n e2e4Mut .white = Except.error .stackOverflow ∧
    isKingInCheckF n e2e4Mut .black = Except.error .stackOverflow := by
  intro n
  induction n with
  | zero => exact ⟨rfl, rfl⟩
  | succ n ih =>
    constructor
    · show scanSquares (isSquareAttackedF n) e2e4Mut 0 4 .black (allSquares.drop 60)
        = Except.error .stackOverflow
      exact scanError _ _ _ _ _ _ _ ⟨.K, .black, 7, 4, false⟩ .stackOverflow rfl rfl
        (kingMovegenError _ _ _ _ rfl rfl ih.2)
    · show scanSquares (isSquareAttackedF n) e2e4Mut 7 4 .white (allSquares.drop 4)
        = Except.error .stackOverflow
      exact scanError _ _ _ _ _ _ _ ⟨.K, .white, 0, 4, false⟩ .stackOverflow rfl rfl
        (kingMovegenError _ _ _ _ rfl rfl ih.1)

/-- C2: refuted on the code.  Board.isSquareAttacked fails to terminate on
the start position: the destination generation it invokes does consult king
safety (King.getPossibleMoves and canCastle call isKingInCheck for an
unmoved king), closing the circular dependency the spec forbids.  For every
stack budget n, the attack query for square e1 by black (the query
isKingInCheck(white) makes) aborts with a stack overflow instead of
returning a Boolean. -/
theorem c2_isSquareAttacked_diverges_on_start (n : Nat) :
    isSquareAttackedF n initialBoard 0 4 .black = Except.error .stackOverflow := by
  cases n with
  | zero => rfl
  | succ n =>
    show scanSquares (isSquareAttackedF n) initialBoard 0 4 .black (allSquares.drop 60)
      = Except.error .stackOverflow
    exact scanError _ _ _ _ _ _ _ ⟨.K, .black, 7, 4, false⟩ .stackOverflow rfl rfl
      (kingMovegenError _ _ _ _ rfl rfl (checkDiverges n).2)

/-- C3: refuted on the code.  For every stack budget, isMoveLegal on the
start position with the request e2e4 returns the generic VALIDATION_ERROR
rejection (the overflow thrown inside validateKingSafety is caught by the
isMoveLegal catch clause) while the board is left mutated: the pawn stands
on e4 and e2 is empty, because the exception skipped the restore step. -/
theorem c3_rejection_leaves_board_mutated (fuel : Nat) :
    isMoveLegalF fuel initialBoard mvE2E4 = (.invalid "VALIDATION_ERROR", e2e4Mut) ∧
    e2e4Mut.getPiece 1 4 = none ∧
    initialBoard.getPiece 1 4 = some ⟨.P, .white, 1, 4, false⟩ ∧
    e2e4Mut ≠ initialBoard := by
  refine ⟨?_, by decide, by decide, by decide⟩
  have hks : validateKingSafetyF fuel initialBoard mvE2E4
      = (Except.error JsError.stackOverflow, e2e4Mut) := by
    show (match isKingInCheckF fuel e2e4Mut Color.white with
          | Except.error e => (Except.error e, e2e4Mut)
          | Except.ok chk =>
            (Except.ok chk,
              (e2e4Mut.setPiece (initialBoard.getPiece 1 4) 1 4).setPiece
                (initialBoard.getPiece 3 4) 3 4)) =
        (Except.error JsError.stackOverflow, e2e4Mut)
    rw [(checkDivergesMut fuel).1]
  show (match (match validateKingSafetyF fuel initialBoard mvE2E4 with
        | (Except.error e, b1) => (Except.error e, b1)
        | (Except.ok true, b1) => (Except.ok (VResult.invalid "KING_IN_CHECK"), b1)
        | (Except.ok false, b1) =>
          match validateSpecialMovesF fuel b1 ⟨.P, .white, 1, 4, false⟩ mvE2E4 with
          | Except.error e => (Except.error e, b1)
          | Except.ok (some reason) => (Except.ok (VResult.invalid reason), b1)
          | Except.ok none =>
            match enrichMoveDataF fuel b1 mvE2E4 ⟨.P, .white, 1, 4, false⟩ with
            | (Except.error e, b2) => (Except.error e, b2)
            | (Except.ok em, b2) => (Except.ok (VResult.valid em), b2)) with
      | (Except.ok r, b1) => (r, b1)
      | (Except.error _, b1) => (VResult.invalid "VALIDATION_ERROR", b1))
      = (VResult.invalid "VALIDATION_ERROR", e2e4Mut)
  rw [hks]

/-- C4: refuted on the code.  Board.clone starts from a freshly constructed
Board, which the constructor fills with the start position, and copies only
the occupied cells of the source; squares empty in the source keep the
fresh start-position pieces.  After e2e4 the square e2 is empty on the
board, yet its clone holds a fresh white pawn there. -/
theorem c4_clone_resurrects_start_pieces :
    e4Board.getPiece 1 4 = none ∧
    e4Board.clone.getPiece 1 4 = some ⟨.P, .white, 1, 4, false⟩ ∧
    e4Board.clone.squares ≠ e4Board.squares := by
  refine ⟨by decide, by decide, by decide⟩

/-- C6: refuted on the code.  Board.toFEN reads only the grid: two boards
with the same piece placement but arbitrary side-relevant auxiliary state
(position history, castling rights, en-passant target, clocks) serialize
identically, so the key cannot include side to move, castling rights or the
en-passant target; and the start position serializes to the bare placement
string, not the full four-field encoding. -/
theorem c6_toFEN_is_placement_only :
    (∀ (sq : List (List (Option Piece))) (ph : List PositionEntry)
      (cr : CastlingRights) (ep : Option String) (hm fm : Nat),
      Board.toFEN ⟨sq, ph, cr, ep, hm, fm⟩
        = Board.toFEN ⟨sq, [], ⟨⟨true, true⟩, ⟨true, true⟩⟩, none, 0, 1⟩) ∧
    initialBoard.toFEN = "rnbqkbnr/pppppppp/8/8/8/8/PPPPPPPP/RNBQKBNR" := by
  exact ⟨fun sq ph cr ep hm fm => rfl, by decide⟩

/-- C9: refuted on the code for offerDraw.  resign does reject an unknown
player id, but offerDraw never checks the player id: on an active game
between alice and bob, a request by the stranger mallory immediately ends
the game as an agreed draw instead of being rejected. -/
theorem c9_offerDraw_skips_player_check :
    activeGame.getPlayerColor "mallory" = none ∧
    activeGame.resign "mallory" 7 = (.failure, activeGame) ∧
    (activeGame.offerDraw "mallory" 7).1 = .success "1/2-1/2" (some "draw_agreement") ∧
    (activeGame.offerDraw "mallory" 7).2.status = "finished" := by
  refine ⟨by decide, by decide, by decide, by decide⟩

/-- C7: once a game is finished, makeMove, resign and offerDraw reject and
return the game unchanged, and switchTurn is the identity; status, result,
reason, turn, board and history are all untouched. -/
theorem c7_finished_is_terminal (g : Game) (h : g.status = "finished")
    (fuel : Nat) (pid : String) (md : MoveData) (now : Nat) :
    Game.makeMoveF fuel g pid md now = (.rejected "GAME_NOT_ACTIVE", g) ∧
    g.resign pid now = (.failure, g) ∧
    g.offerDraw pid now = (.failure, g) ∧
    g.switchTurn = g := by
  refine ⟨?_, ?_, ?_, ?_⟩
  · simp [Game.makeMoveF, Game.validateMoveRequest, h]
  · simp [Game.resign, h]
  · simp [Game.offerDraw, h]
  · simp [Game.switchTurn, h]

/-- Closed instance of c7_finished_is_terminal at a concretely finished
game. -/
theorem c7_finished_is_terminal_witness :
    finishedGame.status = "finished" ∧
    (Game.makeMoveF 3 finishedGame "alice" ⟨some 1, some 4, some 3, some 4, none⟩ 9
        = (.rejected "GAME_NOT_ACTIVE", finishedGame) ∧
      finishedGame.resign "alice" 9 = (.failure, finishedGame) ∧
      finishedGame.offerDraw "alice" 9 = (.failure, finishedGame) ∧
      finishedGame.switchTurn = finishedGame) :=
  ⟨by decide, c7_finished_is_terminal finishedGame (by decide) 3 "alice"
    ⟨some 1, some 4, some 3, some 4, none⟩ 9⟩

/-- setPiece never changes the half-move clock. -/
theorem setPiece_halfMoveClock (b : Board) (p : Option Piece) (r f : Int) :
    (b.setPiece p r f).halfMoveClock = b.halfMoveClock := by
  unfold Board.setPiece
  split <;> rfl

/-- handleSpecialMoves never changes the half-move clock. -/
theorem handleSpecialMoves_halfMoveClock (b : Board) (m : MoveReq) (i : MoveInfo) :
    (b.handleSpecialMoves m i).2.halfMoveClock = b.halfMoveClock := by
  unfold Board.handleSpecialMoves Board.removePiece
  dsimp only
  split_ifs <;> simp [setPiece_halfMoveClock]

/-- For a non-pawn mover, handleSpecialMoves keeps the captured piece of the
undo record (only the en-passant branch, guarded on pawns, rewrites it). -/
theorem handleSpecialMoves_captured (b : Board) (m : MoveReq) (i : MoveInfo)
    (h : i.piece.type ≠ .P) :
    (b.handleSpecialMoves m i).1.capturedPiece = i.capturedPiece := by
  unfold Board.handleSpecialMoves Board.removePiece
  dsimp only
  split_ifs <;> simp_all

/-- The board component of removePiece is a setPiece of none. -/
theorem removePiece_board (b : Board) (r f : Int) :
    (b.removePiece r f).2 = b.setPiece none r f := rfl

/-- The half-move clock after Board.makeMove follows the updateCounters
formula computed from the entry state. -/
theorem makeMoveF_clock (b : Board) (m : MoveReq) (p : Piece)
    (info : MoveInfo) (b2 : Board)
    (hp : b.getPiece m.fromRank m.fromFile = some p)
    (hmk : b.makeMoveF m = Except.ok (info, b2)) :
    b2.halfMoveClock =
      if p.type = .P ∨ b.getPiece m.toRank m.toFile ≠ none then 0
      else b.halfMoveClock + 1 := by
  unfold Board.makeMoveF at hmk
  rw [hp] at hmk
  dsimp only at hmk
  rw [Except.ok.injEq, Prod.mk.injEq] at hmk
  obtain ⟨hinfo, hb2⟩ := hmk
  subst hb2
  split
  case isTrue =>
    unfold Board.updateCounters
    dsimp only
    simp only [handleSpecialMoves_halfMoveClock, removePiece_board, setPiece_halfMoveClock]
  case isFalse =>
    split
    case h_1 q hq =>
      rw [setPiece_halfMoveClock]
      unfold Board.updateCounters
      dsimp only
      simp only [handleSpecialMoves_halfMoveClock, removePiece_board, setPiece_halfMoveClock]
    case h_2 hq =>
      unfold Board.updateCounters
      dsimp only
      simp only [handleSpecialMoves_halfMoveClock, removePiece_board, setPiece_halfMoveClock]

/-- For a non-pawn mover the undo record of Board.makeMove carries exactly
the piece that stood on the destination square. -/
theorem makeMoveF_captured (b : Board) (m : MoveReq) (p : Piece)
    (info : MoveInfo) (b2 : Board)
    (hp : b.getPiece m.fromRank m.fromFile = some p)
    (hmk : b.makeMoveF m = Except.ok (info, b2)) (hP : p.type ≠ .P) :
    info.capturedPiece = b.getPiece m.toRank m.toFile := by
  unfold Board.makeMoveF at hmk
  rw [hp] at hmk
  dsimp only at hmk
  rw [Except.ok.injEq, Prod.mk.injEq] at hmk
  obtain ⟨hinfo, hb2⟩ := hmk
  subst hinfo
  dsimp only
  refine handleSpecialMoves_captured _ _ _ ?_
  exact hP

/-- C8: after Board.makeMove applies a move whose source square holds a
piece and whose destination is on the board, the half-move clock is zero
when the mover is a pawn or the move captured a piece (judged by the
returned undo record capturedPiece, which covers en-passant captures), and
otherwise is the previous clock plus one. -/
theorem c8_halfMoveClock_reset_rule (b : Board) (m : MoveReq) (p : Piece)
    (info : MoveInfo) (b2 : Board)
    (hp : b.getPiece m.fromRank m.fromFile = some p)
    (hto : isValidPosition m.toRank m.toFile = true)
    (hmk : b.makeMoveF m = Except.ok (info, b2)) :
    ((p.type = .P ∨ info.capturedPiece ≠ none) → b2.halfMoveClock = 0) ∧
    (¬(p.type = .P ∨ info.capturedPiece ≠ none) →
      b2.halfMoveClock = b.halfMoveClock + 1) := by
  have hclk := makeMoveF_clock b m p info b2 hp hmk
  by_cases hP : p.type = .P
  · rw [if_pos (Or.inl hP)] at hclk
    exact ⟨fun _ => hclk, fun hcon => absurd (Or.inl hP) hcon⟩
  · have hcap := makeMoveF_captured b m p info b2 hp hmk hP
    constructor
    · intro hor
      rcases hor with h1 | h2
      · exact absurd h1 hP
      · rw [hcap] at h2
        rw [if_pos (Or.inr h2)] at hclk
        exact hclk
    · intro hcon
      rw [if_neg (fun hor => hcon (by
          rcases hor with h1 | h2
          · exact Or.inl h1
          · exact Or.inr (by rw [hcap]; exact h2)))] at hclk
      exact hclk

/-- Closed instance of c8_halfMoveClock_reset_rule: e2e4 (a pawn move)
resets the clock to zero, and the quiet knight move g1f3 increments it. -/
theorem c8_halfMoveClock_reset_rule_witness :
    (initialBoard.getPiece 1 4 = some ⟨.P, .white, 1, 4, false⟩ ∧
      e4Board.halfMoveClock = 0) ∧
    ((initialBoard.makeMoveF ⟨0, 6, 2, 5, .white, none⟩).map
      fun mr => mr.2.halfMoveClock) = Except.ok 1 := by
  refine ⟨⟨by decide, ?_⟩, by decide⟩
  have h := c8_halfMoveClock_reset_rule initialBoard mvE2E4 ⟨.P, .white, 1, 4, false⟩
    (match initialBoard.makeMoveF mvE2E4 with
      | Except.ok mr => mr.1
      | Except.error _ => ⟨⟨.P, .white, 0, 0, false⟩, none, 0, 0, 0, 0,
          ⟨⟨true, true⟩, ⟨true, true⟩⟩, none, 0, false, none, false, false, none⟩)
    e4Board (by decide) (by decide) (by decide)
  exact h.1 (Or.inl rfl)

/-- A scan that returns a Boolean answer returns true whenever some scanned
square holds a piece of the attacking color whose generated moves hit the
target. -/
theorem scanFound (att : AttackFn) (b : Board) (tr tf : Int) (ac : Color) :
    ∀ (l : List (Int × Int)) (v : Bool) (sq : Int × Int) (p : Piece)
      (moves : List GenMove),
    sq ∈ l → b.getPiece sq.1 sq.2 = some p → p.color = ac →
    getPossibleMovesO att b p = Except.ok moves →
    (moves.any fun mv => mv.toRank = tr && mv.toFile = tf) = true →
    scanSquares att b tr tf ac l = Except.ok v → v = true := by
  intro l
  induction l with
  | nil =>
    intro v sq p moves hmem
    cases hmem
  | cons hd tl ih =>
    intro v sq p moves hmem hget hcol hmv hany hscan
    rcases List.mem_cons.mp hmem with heq | hmem2
    · subst heq
      rw [scanSquares.eq_def] at hscan
      simp only [hget, hcol, if_true, hmv, hany, if_pos] at hscan
      exact (Except.ok.inj hscan).symm
    · rcases hh : b.getPiece hd.1 hd.2 with _ | q
      · simp only [scanSquares, hh] at hscan
        exact ih v sq p moves hmem2 hget hcol hmv hany hscan
      · simp only [scanSquares, hh] at hscan
        by_cases hq : q.color = ac
        · simp only [hq, if_true] at hscan
          rcases hqv : getPossibleMovesO att b q with e | qmoves
          · simp [hqv] at hscan
          · simp only [hqv] at hscan
            split at hscan
            · exact (Except.ok.inj hscan).symm
            · exact ih v sq p moves hmem2 hget hcol hmv hany hscan
        · simp only [if_neg hq] at hscan
          exact ih v sq p moves hmem2 hget hcol hmv hany hscan

/-- A successful getPiece implies the coordinates are on the board. -/
theorem getPiece_some_valid (b : Board) (r f : Int) (p : Piece)
    (h : b.getPiece r f = some p) : isValidPosition r f = true := by
  unfold Board.getPiece at h
  by_cases hv : isValidPosition r f = true
  · exact hv
  · rw [if_neg (by simpa using hv)] at h
    cases h

/-- Every on-board coordinate pair occurs in the scan order list. -/
theorem mem_allSquares (r f : Int) (h : isValidPosition r f = true) :
    (r, f) ∈ allSquares := by
  unfold isValidPosition at h
  simp only [Bool.and_eq_true, decide_eq_true_eq] at h
  have hr : r = 0 ∨ r = 1 ∨ r = 2 ∨ r = 3 ∨ r = 4 ∨ r = 5 ∨ r = 6 ∨ r = 7 := by omega
  have hf : f = 0 ∨ f = 1 ∨ f = 2 ∨ f = 3 ∨ f = 4 ∨ f = 5 ∨ f = 6 ∨ f = 7 := by omega
  rcases hr with rfl | rfl | rfl | rfl | rfl | rfl | rfl | rfl <;>
    rcases hf with rfl | rfl | rfl | rfl | rfl | rfl | rfl | rfl <;> decide

/-- The pawn move generator emits the forward pushes: a move to the single
push square when it is free, and to the double push square from an unmoved
pawn when both squares are free. -/
theorem pawn_push_generated (b : Board) (p : Piece) (tr tf : Int)
    (hpush :
      (tr = p.rank + p.direction ∧ tf = p.file ∧
        isValidPosition tr tf = true ∧ b.isEmpty tr tf = true) ∨
      (tr = p.rank + 2 * p.direction ∧ tf = p.file ∧ p.hasMoved = false ∧
        isValidPosition (p.rank + p.direction) p.file = true ∧
        b.isEmpty (p.rank + p.direction) p.file = true ∧
        isValidPosition tr tf = true ∧ b.isEmpty tr tf = true)) :
    ((pawnPossibleMoves b p).any fun mv => mv.toRank = tr && mv.toFile = tf) = true := by
  unfold pawnPossibleMoves
  rcases hpush with ⟨h1, h2, h3, h4⟩ | ⟨h1, h2, h3, h4, h5, h6, h7⟩
  · subst h1
    subst h2
    simp only [h3, h4, Bool.and_self, if_pos, List.any_append, Bool.or_eq_true]
    refine Or.inl (Or.inl ?_)
    by_cases hpr : canPromote p (p.rank + p.direction)
    · simp [hpr, promotionChoices, mkGenMove]
    · simp [hpr, mkGenMove]
  · subst h1
    subst h2
    simp only [h4, h5, Bool.and_self, if_pos, List.any_append, Bool.or_eq_true]
    refine Or.inl (Or.inr ?_)
    simp [h3, h6, h7, mkGenMove]

/-- C10: whenever the fueled attack predicate returns an answer for an empty
square reachable by a forward push of a pawn of the attacking color, the
answer is true: pawn push squares count as attacked, because
isSquareAttacked tests membership in getPossibleMoves, which contains the
pushes, rather than the diagonal attack set. -/
theorem c10_pawn_push_counts_as_attacked (fuel : Nat) (b : Board)
    (pr pf tr tf : Int) (p : Piece) (c : Color) (v : Bool)
    (hget : b.getPiece pr pf = some p) (htype : p.type = .P) (hcol : p.color = c)
    (hrank : p.rank = pr) (hfile : p.file = pf)
    (hpush :
      (tr = pr + p.direction ∧ tf = pf ∧
        isValidPosition tr tf = true ∧ b.isEmpty tr tf = true) ∨
      (tr = pr + 2 * p.direction ∧ tf = pf ∧ p.hasMoved = false ∧
        isValidPosition (pr + p.direction) pf = true ∧
        b.isEmpty (pr + p.direction) pf = true ∧
        isValidPosition tr tf = true ∧ b.isEmpty tr tf = true))
    (hatt : isSquareAttackedF fuel b tr tf c = Except.ok v) :
    v = true := by
  cases fuel with
  | zero => cases hatt
  | succ n =>
    rw [isSquareAttackedF] at hatt
    refine scanFound (isSquareAttackedF n) b tr tf c allSquares v (pr, pf) p
      (pawnPossibleMoves b p)
      (mem_allSquares pr pf (getPiece_some_valid b pr pf p hget))
      hget hcol (by simp [getPossibleMovesO, htype]) ?_ hatt
    refine pawn_push_generated b p tr tf ?_
    rw [hrank, hfile]
    exact hpush

/-- Closed instance of c10_pawn_push_counts_as_attacked: a lone white pawn
on e2 makes the empty square e3 count as attacked by white. -/
theorem c10_pawn_push_counts_as_attacked_witness :
    pawnOnlyBoard.getPiece 1 4 = some ⟨.P, .white, 1, 4, false⟩ ∧
    isSquareAttackedF 1 pawnOnlyBoard 2 4 .white = Except.ok true ∧
    true = true :=
  ⟨by decide, by decide,
    c10_pawn_push_counts_as_attacked 1 pawnOnlyBoard 1 4 2 4
      ⟨.P, .white, 1, 4, false⟩ .white true (by decide) rfl rfl rfl rfl
      (Or.inl (by refine ⟨by decide, by decide, by decide, by decide⟩))
      (by decide)⟩

/-! ### The position history is never written -/

theorem setPiece_positionHistory (b : Board) (p : Option Piece) (r f : Int) :
    (b.setPiece p r f).positionHistory = b.positionHistory := by
  unfold Board.setPiece
  split <;> rfl

theorem updateCounters_positionHistory (b : Board) (p : Piece) (c : Option Piece) :
    (b.updateCounters p c).positionHistory = b.positionHistory := rfl

theorem handleSpecialMoves_positionHistory (b : Board) (m : MoveReq) (i : MoveInfo) :
    (b.handleSpecialMoves m i).2.positionHistory = b.positionHistory := by
  unfold Board.handleSpecialMoves Board.removePiece
  dsimp only
  split_ifs <;> simp [setPiece_positionHistory]

/-- Board.makeMove never touches the position history. -/
theorem makeMoveF_positionHistory (b : Board) (m : MoveReq) (info : MoveInfo)
    (b2 : Board) (h : b.makeMoveF m = Except.ok (info, b2)) :
    b2.positionHistory = b.positionHistory := by
  unfold Board.makeMoveF at h
  rcases hp : b.getPiece m.fromRank m.fromFile with _ | p
  · rw [hp] at h
    cases h
  · rw [hp] at h
    dsimp only at h
    rw [Except.ok.injEq, Prod.mk.injEq] at h
    obtain ⟨hi, hb⟩ := h
    subst hb
    have hbase : ∀ (bb : Board) (q : Piece) (cc : Option Piece),
        (bb.updateCounters q cc).positionHistory = bb.positionHistory :=
      fun _ _ _ => rfl
    split
    case isTrue =>
      rw [hbase, handleSpecialMoves_positionHistory, removePiece_board,
        setPiece_positionHistory, setPiece_positionHistory]
    case isFalse =>
      split
      case h_1 q hq =>
        rw [setPiece_positionHistory, hbase, handleSpecialMoves_positionHistory,
          removePiece_board, setPiece_positionHistory, setPiece_positionHistory]
      case h_2 =>
        rw [hbase, handleSpecialMoves_positionHistory, removePiece_board,
          setPiece_positionHistory, setPiece_positionHistory]

theorem validateKingSafetyF_positionHistory (fuel : Nat) (b : Board) (m : MoveReq) :
    (validateKingSafetyF fuel b m).2.positionHistory = b.positionHistory := by
  unfold validateKingSafetyF
  dsimp only
  split <;> simp [setPiece_positionHistory]

theorem hnlmMoves_positionHistory (fuel : Nat) (c : Color) (sq : Int × Int) :
    ∀ (mvs : List GenMove) (tb : Board),
    (hnlmMoves fuel c sq mvs tb).2.positionHistory = tb.positionHistory := by
  intro mvs
  induction mvs with
  | nil => intro tb; rfl
  | cons mv rest ih =>
    intro tb
    rcases hv : validateKingSafetyF fuel tb ⟨sq.1, sq.2, mv.toRank, mv.toFile, c, none⟩
      with ⟨e | chk, tb1⟩
    · have htb1 : tb1.positionHistory = tb.positionHistory := by
        have hh := validateKingSafetyF_positionHistory fuel tb
          ⟨sq.1, sq.2, mv.toRank, mv.toFile, c, none⟩
        rw [hv] at hh
        exact hh
      simp only [hnlmMoves, hv]
      exact htb1
    · have htb1 : tb1.positionHistory = tb.positionHistory := by
        have hh := validateKingSafetyF_positionHistory fuel tb
          ⟨sq.1, sq.2, mv.toRank, mv.toFile, c, none⟩
        rw [hv] at hh
        exact hh
      simp only [hnlmMoves, hv]
      cases chk
      · simp only [Bool.false_eq_true, if_false]
        exact htb1
      · simp only [if_true]
        exact (ih tb1).trans htb1

theorem hnlmSquares_positionHistory (fuel : Nat) (board : Board) (c : Color) :
    ∀ (l : List (Int × Int)) (tb : Board),
    (hnlmSquares fuel board c l tb).2.positionHistory = tb.positionHistory := by
  intro l
  induction l with
  | nil => intro tb; rfl
  | cons sq rest ih =>
    intro tb
    rcases hg : board.getPiece sq.1 sq.2 with _ | p
    · simp only [hnlmSquares, hg]
      exact ih tb
    · by_cases hpc : p.color = c
      · rcases hmv : getPossibleMovesF fuel board p with e | moves
        · simp only [hnlmSquares, hg, hpc, if_true, hmv]
        · rcases hm : hnlmMoves fuel c sq moves tb with ⟨r, tb1⟩
          have h1 : tb1.positionHistory = tb.positionHistory := by
            have hh := hnlmMoves_positionHistory fuel c sq moves tb
            rw [hm] at hh
            exact hh
          rcases r with _ | r
          · simp only [hnlmSquares, hg, hpc, if_true, hmv, hm]
            exact (ih tb1).trans h1
          · simp only [hnlmSquares, hg, hpc, if_true, hmv, hm]
            exact h1
      · simp only [hnlmSquares, hg, hpc, if_false]
        exact ih tb

theorem hasNoLegalMovesF_positionHistory (fuel : Nat) (tb board : Board) (c : Color) :
    (hasNoLegalMovesF fuel tb board c).2.positionHistory = tb.positionHistory :=
  hnlmSquares_positionHistory fuel board c allSquares tb

theorem isCheckmateF_positionHistory (fuel : Nat) (tb board : Board) (c : Color) :
    (isCheckmateF fuel tb board c (hasNoLegalMovesF fuel)).2.positionHistory
      = tb.positionHistory := by
  unfold isCheckmateF
  split
  · rfl
  · rfl
  · exact hasNoLegalMovesF_positionHistory fuel tb board c

theorem isStalemateF_positionHistory (fuel : Nat) (tb board : Board) (c : Color) :
    (isStalemateF fuel tb board c (hasNoLegalMovesF fuel)).2.positionHistory
      = tb.positionHistory := by
  unfold isStalemateF
  split
  · rfl
  · rfl
  · exact hasNoLegalMovesF_positionHistory fuel tb board c

theorem setMoveFlagsF_positionHistory (fuel : Nat) (tb : Board) (em : EnrichedMove)
    (piece : Piece) :
    (setMoveFlagsF fuel tb em piece).2.positionHistory = tb.positionHistory := by
  unfold setMoveFlagsF
  dsimp only
  split
  · rfl
  · split
    · rfl
    · rcases hm : isCheckmateF fuel tb _ _ (hasNoLegalMovesF fuel) with ⟨e | mate, tb1⟩
      · have hh : tb1.positionHistory = tb.positionHistory :=
          (congrArg (fun r => r.2.positionHistory) hm).symm.trans
            (isCheckmateF_positionHistory _ _ _ _)
        simp only [hm]
        exact hh
      · have hh : tb1.positionHistory = tb.positionHistory :=
          (congrArg (fun r => r.2.positionHistory) hm).symm.trans
            (isCheckmateF_positionHistory _ _ _ _)
        simp only [hm]
        exact hh
    · rcases hm : isStalemateF fuel tb _ _ (hasNoLegalMovesF fuel) with ⟨e | st, tb1⟩
      · have hh : tb1.positionHistory = tb.positionHistory :=
          (congrArg (fun r => r.2.positionHistory) hm).symm.trans
            (isStalemateF_positionHistory _ _ _ _)
        simp only [hm]
        exact hh
      · have hh : tb1.positionHistory = tb.positionHistory :=
          (congrArg (fun r => r.2.positionHistory) hm).symm.trans
            (isStalemateF_positionHistory _ _ _ _)
        simp only [hm]
        exact hh

theorem disambigScan_positionHistory (fuel : Nat) (em : EnrichedMove) :
    ∀ (l : List (Int × Int)) (tb : Board) (acc : List (Int × Int)),
    (disambigScan fuel em l tb acc).2.positionHistory = tb.positionHistory := by
  intro l
  induction l with
  | nil => intro tb acc; rfl
  | cons sq rest ih =>
    intro tb acc
    rcases hg : tb.getPiece sq.1 sq.2 with _ | p
    · simp only [disambigScan, hg]
      exact ih tb acc
    · simp only [disambigScan, hg]
      split_ifs with hcond
      · rcases hc : canMoveToF fuel p em.toRank em.toFile tb with e | ok
        · simp only [hc]
        · rcases ok with _ | _
          · simp only [hc]
            exact ih tb acc
          · rcases hv : validateKingSafetyF fuel tb
                ⟨sq.1, sq.2, em.toRank, em.toFile, em.color, none⟩ with ⟨e | chk, tb1⟩
            · have hh : tb1.positionHistory = tb.positionHistory :=
                (congrArg (fun r => r.2.positionHistory) hv).symm.trans
                  (validateKingSafetyF_positionHistory _ _ _)
              simp only [hc, hv]
              exact hh
            · have hh : tb1.positionHistory = tb.positionHistory :=
                (congrArg (fun r => r.2.positionHistory) hv).symm.trans
                  (validateKingSafetyF_positionHistory _ _ _)
              cases chk
              · simp only [hc, hv, Bool.false_eq_true, if_false]
                exact (ih tb1 (acc ++ [sq])).trans hh
              · simp only [hc, hv, if_true]
                exact (ih tb1 acc).trans hh
      · exact ih tb acc

theorem getDisambiguationF_positionHistory (fuel : Nat) (tb : Board)
    (em : EnrichedMove) :
    (getDisambiguationF fuel tb em).2.positionHistory = tb.positionHistory := by
  unfold getDisambiguationF
  split
  · rfl
  · rcases hd : disambigScan fuel em allSquares tb [] with ⟨e | sim, tb1⟩
    · have hh : tb1.positionHistory = tb.positionHistory :=
        (congrArg (fun r => r.2.positionHistory) hd).symm.trans
          (disambigScan_positionHistory _ _ _ _ _)
      simp only [hd]
      exact hh
    · have hh : tb1.positionHistory = tb.positionHistory :=
        (congrArg (fun r => r.2.positionHistory) hd).symm.trans
          (disambigScan_positionHistory _ _ _ _ _)
      simp only [hd]
      split_ifs <;> exact hh

theorem genSanF_positionHistory (fuel : Nat) (tb : Board) (em : EnrichedMove) :
    (genSanF fuel tb em).2.positionHistory = tb.positionHistory := by
  unfold genSanF
  split
  · rfl
  · rcases hd : getDisambiguationF fuel tb em with ⟨e | dis, tb1⟩
    · have hh : tb1.positionHistory = tb.positionHistory :=
        (congrArg (fun r => r.2.positionHistory) hd).symm.trans
          (getDisambiguationF_positionHistory _ _ _)
      simp only [hd]
      exact hh
    · have hh : tb1.positionHistory = tb.positionHistory :=
        (congrArg (fun r => r.2.positionHistory) hd).symm.trans
          (getDisambiguationF_positionHistory _ _ _)
      simp only [hd]
      exact hh

theorem enrichMoveDataF_positionHistory (fuel : Nat) (tb : Board) (m : MoveReq)
    (piece : Piece) :
    (enrichMoveDataF fuel tb m piece).2.positionHistory = tb.positionHistory := by
  unfold enrichMoveDataF
  rcases hs : setMoveFlagsF fuel tb _ piece with ⟨e | em1, tb1⟩
  · have hh : tb1.positionHistory = tb.positionHistory :=
      (congrArg (fun r => r.2.positionHistory) hs).symm.trans
        (setMoveFlagsF_positionHistory _ _ _ _)
    simp only [hs]
    exact hh
  · have hh : tb1.positionHistory = tb.positionHistory :=
      (congrArg (fun r => r.2.positionHistory) hs).symm.trans
        (setMoveFlagsF_positionHistory _ _ _ _)
    rcases hg : genSanF fuel tb1 em1 with ⟨e2 | san, tb2⟩
    · have hh2 : tb2.positionHistory = tb1.positionHistory :=
        (congrArg (fun r => r.2.positionHistory) hg).symm.trans
          (genSanF_positionHistory _ _ _)
      simp only [hs, hg]
      exact hh2.trans hh
    · have hh2 : tb2.positionHistory = tb1.positionHistory :=
        (congrArg (fun r => r.2.positionHistory) hg).symm.trans
          (genSanF_positionHistory _ _ _)
      simp only [hs, hg]
      exact hh2.trans hh

theorem isMoveLegalRun_positionHistory (fuel : Nat) (b : Board) (m : MoveReq) :
    (isMoveLegalRun fuel b m).2.positionHistory = b.positionHistory := by
  unfold isMoveLegalRun
  split
  · rfl
  · split
    · rfl
    · rcases hc : canMoveToF fuel _ m.toRank m.toFile b with e | ok
      · simp only [hc]
      · rcases ok with _ | _
        · simp only [hc]
        · rcases hv : validateKingSafetyF fuel b m with ⟨e | chk, b1⟩
          · have hh : b1.positionHistory = b.positionHistory :=
              (congrArg (fun r => r.2.positionHistory) hv).symm.trans
                (validateKingSafetyF_positionHistory _ _ _)
            simp only [hv]
            exact hh
          · have hh : b1.positionHistory = b.positionHistory :=
              (congrArg (fun r => r.2.positionHistory) hv).symm.trans
                (validateKingSafetyF_positionHistory _ _ _)
            rcases chk with _ | _
            · simp only [hv]
              rcases hsp : validateSpecialMovesF fuel b1 _ m with e2 | reason
              · exact hh
              · rcases reason with _ | r
                · rcases he : enrichMoveDataF fuel b1 m _ with ⟨e3 | em, b2⟩
                  · have hh2 : b2.positionHistory = b1.positionHistory :=
                      (congrArg (fun r => r.2.positionHistory) he).symm.trans
                        (enrichMoveDataF_positionHistory _ _ _ _)
                    simp only [he]
                    exact hh2.trans hh
                  · have hh2 : b2.positionHistory = b1.positionHistory :=
                      (congrArg (fun r => r.2.positionHistory) he).symm.trans
                        (enrichMoveDataF_positionHistory _ _ _ _)
                    simp only [he]
                    exact hh2.trans hh
                · exact hh
            · simp only [hv]
              exact hh

theorem isMoveLegalF_positionHistory (fuel : Nat) (b : Board) (m : MoveReq) :
    (isMoveLegalF fuel b m).2.positionHistory = b.positionHistory := by
  unfold isMoveLegalF
  rcases hr : isMoveLegalRun fuel b m with ⟨e | r, b1⟩
  · have hh : b1.positionHistory = b.positionHistory :=
      (congrArg (fun r => r.2.positionHistory) hr).symm.trans
        (isMoveLegalRun_positionHistory _ _ _)
    simp only [hr]
    exact hh
  · have hh : b1.positionHistory = b.positionHistory :=
      (congrArg (fun r => r.2.positionHistory) hr).symm.trans
        (isMoveLegalRun_positionHistory _ _ _)
    simp only [hr]
    exact hh

/-- The per-game invariant of the repetition analysis: the board history
stays empty and the result reason is never the threefold code. -/
def NoRepState (g : Game) : Prop :=
  g.board.positionHistory = [] ∧ g.resultReason ≠ some "threefold_repetition"

theorem isDrawByRepetition_empty (g : Game) (h : g.board.positionHistory = []) :
    g.isDrawByRepetition = false := by
  unfold Game.isDrawByRepetition
  rw [h]
  rfl

theorem setTimeOf_board (g : Game) (c : Color) (t : Nat) :
    (g.setTimeOf c t).board = g.board := by
  cases c <;> rfl

theorem setTimeOf_resultReason (g : Game) (c : Color) (t : Nat) :
    (g.setTimeOf c t).resultReason = g.resultReason := by
  cases c <;> rfl

theorem updatePlayerTime_noRep (g : Game) (now : Nat) (h : NoRepState g) :
    NoRepState (g.updatePlayerTime now) := by
  unfold Game.updatePlayerTime
  split
  · split
    · dsimp only
      split
      · constructor
        · simp only [Game.endGame, setTimeOf_board]
          exact h.1
        · simp only [Game.endGame]
          decide
      · constructor
        · rw [setTimeOf_board]
          exact h.1
        · rw [setTimeOf_resultReason]
          exact h.2
    · exact h
  · exact h

theorem updateGameState_noRep (g : Game) (em : EnrichedMove) (now : Nat)
    (h : NoRepState g) : NoRepState (g.updateGameState em now) := by
  unfold Game.updateGameState
  refine updatePlayerTime_noRep _ now ?_
  obtain ⟨h1, h2⟩ := h
  split_ifs with hc1 hc2 hc3 hc4 hc5
  · exact ⟨h1, by simp [Game.endGame]⟩
  · exact ⟨h1, by simp [Game.endGame]⟩
  · rw [isDrawByRepetition_empty g h1] at hc3
    cases hc3
  · exact ⟨h1, by simp [Game.endGame]⟩
  · exact ⟨h1, by simp [Game.endGame]⟩
  · exact ⟨h1, h2⟩

theorem executeMove_noRep (g : Game) (em : EnrichedMove) (now : Nat) (g2 : Game)
    (h : NoRepState g) (he : g.executeMove em now = Except.ok g2) :
    NoRepState g2 := by
  unfold Game.executeMove at he
  rcases hb : g.board.makeMoveF ⟨em.fromRank, em.fromFile, em.toRank, em.toFile,
      em.color, em.promotion⟩ with e | mr
  · rw [hb] at he
    cases he
  · rw [hb] at he
    dsimp only at he
    rw [Except.ok.injEq] at he
    subst he
    obtain ⟨h1, h2⟩ := h
    refine ⟨?_, ?_⟩
    · have := makeMoveF_positionHistory g.board _ mr.1 mr.2 (by rw [hb])
      unfold Game.updateMoveStats
      dsimp only
      rw [this, h1]
    · unfold Game.updateMoveStats
      dsimp only
      exact h2

theorem switchTurn_noRep (g : Game) (h : NoRepState g) : NoRepState g.switchTurn := by
  unfold Game.switchTurn
  split
  · exact h
  · exact h

/-- Every path of Game.makeMove preserves the invariant: the position
history is never appended to and the threefold reason is never set. -/
theorem gameMakeMove_noRep (fuel : Nat) (g : Game) (pid : String) (md : MoveData)
    (now : Nat) (h : NoRepState g) :
    NoRepState (Game.makeMoveF fuel g pid md now).2 := by
  unfold Game.makeMoveF
  split
  · exact h
  · rcases hl : isMoveLegalF fuel g.board
        ⟨md.fromRank.getD 0, md.fromFile.getD 0, md.toRank.getD 0, md.toFile.getD 0,
          g.currentTurn, md.promotion⟩ with ⟨em | reason, b1⟩
    · have hh := isMoveLegalF_positionHistory fuel g.board
        ⟨md.fromRank.getD 0, md.fromFile.getD 0, md.toRank.getD 0, md.toFile.getD 0,
          g.currentTurn, md.promotion⟩
      rw [hl] at hh
      have hg1 : NoRepState { g with board := b1 } := ⟨hh.trans h.1, h.2⟩
      rcases he : Game.executeMove { g with board := b1 } em now with e | g2
      · simp only [hl, he]
        exact hg1
      · simp only [hl, he]
        exact switchTurn_noRep _ (updateGameState_noRep _ em now
          (executeMove_noRep _ em now g2 hg1 he))
    · have hh := isMoveLegalF_positionHistory fuel g.board
        ⟨md.fromRank.getD 0, md.fromFile.getD 0, md.toRank.getD 0, md.toFile.getD 0,
          g.currentTurn, md.promotion⟩
      rw [hl] at hh
      simp only [hl]
      exact ⟨hh.trans h.1, h.2⟩

/-- C5: refuted on the code.  For every sequence of move requests played
from a fresh game, the board position history stays empty, so
isDrawByRepetition is identically false and no move ever ends the game with
the threefold_repetition reason: nothing in the engine records positions
into the history (and the position key itself omits side to move, castling
rights and the en-passant target). -/
theorem c5_threefold_repetition_never_fires (fuel : Nat)
    (id wid bid : String) (tc inc : Nat) (rk : Bool) (now0 : Nat)
    (steps : List (String × MoveData × Nat)) :
    (runGame fuel (mkGame id wid bid tc inc rk now0) steps).board.positionHistory = [] ∧
    (runGame fuel (mkGame id wid bid tc inc rk now0) steps).isDrawByRepetition = false ∧
    (runGame fuel (mkGame id wid bid tc inc rk now0) steps).resultReason
      ≠ some "threefold_repetition" := by
  have hinv : ∀ (l : List (String × MoveData × Nat)) (g : Game), NoRepState g →
      NoRepState (runGame fuel g l) := by
    intro l
    induction l with
    | nil => intro g hg; exact hg
    | cons s rest ih =>
      intro g hg
      exact ih _ (gameMakeMove_noRep fuel g s.1 s.2.1 s.2.2 hg)
  have h0 : NoRepState (mkGame id wid bid tc inc rk now0) := by
    constructor
    · rfl
    · intro hc
      cases hc
  have hN := hinv steps _ h0
  exact ⟨hN.1, isDrawByRepetition_empty _ hN.1, hN.2⟩

/-! ### C1: empty legal-move list without checkmate or stalemate -/

/-- setMoveFlags aborts with the error thrown by the check query it runs on
the scratch clone after applying the move there. -/
theorem setMoveFlagsF_error (fuel : Nat) (tb : Board) (em : EnrichedMove)
    (piece : Piece) (info : MoveInfo) (b2 : Board) (e : JsError)
    (hmk : tb.clone.makeMoveF ⟨em.fromRank, em.fromFile, em.toRank, em.toFile,
        em.color, em.promotion⟩ = Except.ok (info, b2))
    (hkc : isKingInCheckF fuel b2 piece.color.opp = Except.error e) :
    setMoveFlagsF fuel tb em piece = (Except.error e, tb) := by
  simp only [setMoveFlagsF, hmk, hkc]

/-- enrichMoveData propagates an error of the flag simulation. -/
theorem enrichMoveDataF_error (fuel : Nat) (tb : Board) (m : MoveReq)
    (piece : Piece) (e : JsError) (tb1 : Board)
    (hsf : setMoveFlagsF fuel tb (baseEnrichedMove tb m piece) piece
      = (Except.error e, tb1)) :
    enrichMoveDataF fuel tb m piece = (Except.error e, tb1) := by
  simp only [enrichMoveDataF, hsf]

/-- isMoveLegal on a move that passes every validation stage but whose
enrichment throws: the catch converts the exception into the generic
VALIDATION_ERROR rejection, keeping the board the enrichment left. -/
theorem isMoveLegalF_catch_enrich (fuel : Nat) (b b1 b2 : Board) (m : MoveReq)
    (piece : Piece) (e : JsError)
    (hb : validateBasicMoveF b m = none)
    (hg : b.getPiece m.fromRank m.fromFile = some piece)
    (hc : canMoveToF fuel piece m.toRank m.toFile b = Except.ok true)
    (hks : validateKingSafetyF fuel b m = (Except.ok false, b1))
    (hsp : validateSpecialMovesF fuel b1 piece m = Except.ok none)
    (hen : enrichMoveDataF fuel b1 m piece = (Except.error e, b2)) :
    isMoveLegalF fuel b m = (.invalid "VALIDATION_ERROR", b2) := by
  simp only [isMoveLegalF, isMoveLegalRun, hb, hg, hc, hks, hsp, hen]

/-- On the h1-g1 simulation board the resurrected unmoved kings on e1 and e8
make both attack queries of the check recursion exhaust every stack
budget. -/
theorem kkQG1 : ∀ n : Nat,
    isSquareAttackedF n kkSimG1 6 4 .white = Except.error .stackOverflow ∧
    isSquareAttackedF n kkSimG1 0 4 .black = Except.error .stackOverflow := by
  intro n
  induction n with
  | zero => exact ⟨rfl, rfl⟩
  | succ n ih =>
    constructor
    · show scanSquares (isSquareAttackedF n) kkSimG1 6 4 .white (allSquares.drop 4)
        = Except.error .stackOverflow
      exact scanError _ _ _ _ _ _ _ ⟨.K, .white, 0, 4, false⟩ .stackOverflow rfl rfl
        (kingMovegenError _ _ _ _ rfl rfl ih.2)
    · show scanSquares (isSquareAttackedF n) kkSimG1 0 4 .black (allSquares.drop 60)
        = Except.error .stackOverflow
      exact scanError _ _ _ _ _ _ _ ⟨.K, .black, 7, 4, false⟩ .stackOverflow rfl rfl
        (kingMovegenError _ _ _ _ rfl rfl ih.1)

/-- Same divergence on the h1-g2 simulation board. -/
theorem kkQG2 : ∀ n : Nat,
    isSquareAttackedF n kkSimG2 6 4 .white = Except.error .stackOverflow ∧
    isSquareAttackedF n kkSimG2 0 4 .black = Except.error .stackOverflow := by
  intro n
  induction n with
  | zero => exact ⟨rfl, rfl⟩
  | succ n ih =>
    constructor
    · show scanSquares (isSquareAttackedF n) kkSimG2 6 4 .white (allSquares.drop 4)
        = Except.error .stackOverflow
      exact scanError _ _ _ _ _ _ _ ⟨.K, .white, 0, 4, false⟩ .stackOverflow rfl rfl
        (kingMovegenError _ _ _ _ rfl rfl ih.2)
    · show scanSquares (isSquareAttackedF n) kkSimG2 0 4 .black (allSquares.drop 60)
        = Except.error .stackOverflow
      exact scanError _ _ _ _ _ _ _ ⟨.K, .black, 7, 4, false⟩ .stackOverflow rfl rfl
        (kingMovegenError _ _ _ _ rfl rfl ih.1)

/-- Same divergence on the h1-h2 simulation board. -/
theorem kkQH2 : ∀ n : Nat,
    isSquareAttackedF n kkSimH2 6 4 .white = Except.error .stackOverflow ∧
    isSquareAttackedF n kkSimH2 0 4 .black = Except.error .stackOverflow := by
  intro n
  induction n with
  | zero => exact ⟨rfl, rfl⟩
  | succ n ih =>
    constructor
    · show scanSquares (isSquareAttackedF n) kkSimH2 6 4 .white (allSquares.drop 4)
        = Except.error .stackOverflow
      exact scanError _ _ _ _ _ _ _ ⟨.K, .white, 0, 4, false⟩ .stackOverflow rfl rfl
        (kingMovegenError _ _ _ _ rfl rfl ih.2)
    · show scanSquares (isSquareAttackedF n) kkSimH2 0 4 .black (allSquares.drop 60)
        = Except.error .stackOverflow
      exact scanError _ _ _ _ _ _ _ ⟨.K, .black, 7, 4, false⟩ .stackOverflow rfl rfl
        (kingMovegenError _ _ _ _ rfl rfl ih.1)

/-- The candidate h1-g1 on kkBoard is rejected with VALIDATION_ERROR at
every positive stack budget, with the live board restored. -/
theorem kk_candG1 (n : Nat) :
    isMoveLegalF (n + 1) kkBoard ⟨0, 7, 0, 6, .white, none⟩
      = (.invalid "VALIDATION_ERROR", kkBoard) := by
  have hkc : isKingInCheckF (n + 1) kkSimG1 Color.black
      = Except.error .stackOverflow := (kkQG1 (n + 1)).1
  have hen : enrichMoveDataF (n + 1) kkBoard ⟨0, 7, 0, 6, .white, none⟩
      ⟨.K, .white, 0, 7, true⟩ = (Except.error .stackOverflow, kkBoard) :=
    enrichMoveDataF_error _ _ _ _ _ _
      (setMoveFlagsF_error _ _ _ _ kkInfoG1 kkSimG1 _ rfl hkc)
  exact isMoveLegalF_catch_enrich (n + 1) kkBoard kkBoard kkBoard
    ⟨0, 7, 0, 6, .white, none⟩ ⟨.K, .white, 0, 7, true⟩ .stackOverflow
    rfl rfl rfl rfl rfl hen

/-- The candidate h1-g2 on kkBoard, same outcome. -/
theorem kk_candG2 (n : Nat) :
    isMoveLegalF (n + 1) kkBoard ⟨0, 7, 1, 6, .white, none⟩
      = (.invalid "VALIDATION_ERROR", kkBoard) := by
  have hkc : isKingInCheckF (n + 1) kkSimG2 Color.black
      = Except.error .stackOverflow := (kkQG2 (n + 1)).1
  have hen : enrichMoveDataF (n + 1) kkBoard ⟨0, 7, 1, 6, .white, none⟩
      ⟨.K, .white, 0, 7, true⟩ = (Except.error .stackOverflow, kkBoard) :=
    enrichMoveDataF_error _ _ _ _ _ _
      (setMoveFlagsF_error _ _ _ _ kkInfoG2 kkSimG2 _ rfl hkc)
  exact isMoveLegalF_catch_enrich (n + 1) kkBoard kkBoard kkBoard
    ⟨0, 7, 1, 6, .white, none⟩ ⟨.K, .white, 0, 7, true⟩ .stackOverflow
    rfl rfl rfl rfl rfl hen

/-- The candidate h1-h2 on kkBoard, same outcome. -/
theorem kk_candH2 (n : Nat) :
    isMoveLegalF (n + 1) kkBoard ⟨0, 7, 1, 7, .white, none⟩
      = (.invalid "VALIDATION_ERROR", kkBoard) := by
  have hkc : isKingInCheckF (n + 1) kkSimH2 Color.black
      = Except.error .stackOverflow := (kkQH2 (n + 1)).1
  have hen : enrichMoveDataF (n + 1) kkBoard ⟨0, 7, 1, 7, .white, none⟩
      ⟨.K, .white, 0, 7, true⟩ = (Except.error .stackOverflow, kkBoard) :=
    enrichMoveDataF_error _ _ _ _ _ _
      (setMoveFlagsF_error _ _ _ _ kkInfoH2 kkSimH2 _ rfl hkc)
  exact isMoveLegalF_catch_enrich (n + 1) kkBoard kkBoard kkBoard
    ⟨0, 7, 1, 7, .white, none⟩ ⟨.K, .white, 0, 7, true⟩ .stackOverflow
    rfl rfl rfl rfl rfl hen

/-- Every candidate of the white king is rejected, so the inner loop of
getAllLegalMoves collects nothing and leaves the board as it found it. -/
theorem kk_galmMoves (n : Nat) :
    galmMoves (n + 1) .white ((0 : Int), (7 : Int))
      [mkGenMove 0 7 0 6 none, mkGenMove 0 7 1 6 none, mkGenMove 0 7 1 7 none]
      kkBoard [] = (kkBoard, []) := by
  simp only [galmMoves, mkGenMove, kk_candG1 n, kk_candG2 n, kk_candH2 n]

/-- One step of the getAllLegalMoves square scan over an empty square. -/
theorem galmSquares_skip (fuel : Nat) (c : Color) (sq : Int × Int)
    (rest : List (Int × Int)) (tb : Board) (acc : List EnrichedMove)
    (h : tb.getPiece sq.1 sq.2 = none) :
    galmSquares fuel c (sq :: rest) tb acc = galmSquares fuel c rest tb acc := by
  simp only [galmSquares, h]

/-- One step of the getAllLegalMoves square scan over an own piece whose
move generation returns: the scan descends into the candidate loop. -/
theorem galmSquares_piece (fuel : Nat) (c : Color) (sq : Int × Int)
    (rest : List (Int × Int)) (tb : Board) (acc : List EnrichedMove) (p : Piece)
    (moves : List GenMove)
    (hg : tb.getPiece sq.1 sq.2 = some p) (hc : p.color = c)
    (hmv : getPossibleMovesF fuel tb p = Except.ok moves) :
    galmSquares fuel c (sq :: rest) tb acc
      = galmSquares fuel c rest (galmMoves fuel c sq moves tb acc).1
          (galmMoves fuel c sq moves tb acc).2 := by
  simp only [galmSquares, hg, hc, hmv, eq_self_iff_true, if_true]

/-- getAllLegalMoves(white) on kkBoard returns the empty list at every
positive stack budget. -/
theorem kk_galm (n : Nat) :
    getAllLegalMovesF (n + 1) kkBoard .white = (Except.ok [], kkBoard) := by
  calc getAllLegalMovesF (n + 1) kkBoard .white
      = galmSquares (n + 1) .white allSquares kkBoard [] := rfl
    _ = galmSquares (n + 1) .white (allSquares.drop 1) kkBoard [] :=
        galmSquares_skip _ _ _ _ _ _ rfl
    _ = galmSquares (n + 1) .white (allSquares.drop 2) kkBoard [] :=
        galmSquares_skip _ _ _ _ _ _ rfl
    _ = galmSquares (n + 1) .white (allSquares.drop 3) kkBoard [] :=
        galmSquares_skip _ _ _ _ _ _ rfl
    _ = galmSquares (n + 1) .white (allSquares.drop 4) kkBoard [] :=
        galmSquares_skip _ _ _ _ _ _ rfl
    _ = galmSquares (n + 1) .white (allSquares.drop 5) kkBoard [] :=
        galmSquares_skip _ _ _ _ _ _ rfl
    _ = galmSquares (n + 1) .white (allSquares.drop 6) kkBoard [] :=
        galmSquares_skip _ _ _ _ _ _ rfl
    _ = galmSquares (n + 1) .white (allSquares.drop 7) kkBoard [] :=
        galmSquares_skip _ _ _ _ _ _ rfl
    _ = galmSquares (n + 1) .white (allSquares.drop 8)
          (galmMoves (n + 1) .white ((0 : Int), (7 : Int))
            [mkGenMove 0 7 0 6 none, mkGenMove 0 7 1 6 none, mkGenMove 0 7 1 7 none]
            kkBoard []).1
          (galmMoves (n + 1) .white ((0 : Int), (7 : Int))
            [mkGenMove 0 7 0 6 none, mkGenMove 0 7 1 6 none, mkGenMove 0 7 1 7 none]
            kkBoard []).2 :=
        galmSquares_piece _ _ _ _ _ _ _ _ rfl rfl rfl
    _ = galmSquares (n + 1) .white (allSquares.drop 8) kkBoard [] := by
        rw [kk_galmMoves n]
    _ = (Except.ok [], kkBoard) := rfl

/-- C1: refuted on the code.  On the reachable bare-kings position kkBoard
(white king h1, black king e7, both moved), getAllLegalMoves(white) returns
the empty list at every positive stack budget, while isCheckmate(white) and
isStalemate(white) — computed via hasNoLegalMoves on the same board, as the
source does — both return false, and hasNoLegalMoves itself returns false.
The asymmetry arises because getAllLegalMoves filters through isMoveLegal,
whose setMoveFlags step simulates each candidate on a Board.clone; the clone
resurrects fresh unmoved kings on e1 and e8, whose castling guard makes the
check recursion overflow the stack, so every candidate is caught as
VALIDATION_ERROR — whereas hasNoLegalMoves checks king safety directly on
the live board, where both kings have moved, and terminates.  So the empty
legal-move list coincides with neither checkmate nor stalemate. -/
theorem c1_empty_legal_moves_without_mate_or_stalemate (n : Nat) :
    getAllLegalMovesF (n + 1) kkBoard .white = (Except.ok [], kkBoard) ∧
    isCheckmateF (n + 1) kkBoard kkBoard .white (hasNoLegalMovesF (n + 1))
      = (Except.ok false, kkBoard) ∧
    isStalemateF (n + 1) kkBoard kkBoard .white (hasNoLegalMovesF (n + 1))
      = (Except.ok false, kkBoard) ∧
    hasNoLegalMovesF (n + 1) kkBoard kkBoard .white = (Except.ok false, kkBoard) :=
  ⟨kk_galm n, rfl, rfl, rfl⟩

end AxChess
